import Mathlib

/-!
Verification of the myquery multi-database query/merge engine and the MCP
session dispatcher, as a shallow embedding of the Python source
(`tools/multi_db_query_tool.py`, `tools/execute_query_tool.py`,
`tools/connect_db_tool.py`, `mcp/server.py`, `mcp/protocol.py`).

Python dictionaries are modelled as association lists with
first-occurrence lookup and in-place update; Python `None` is the value
`Val.null`; SQL values are an abstract sum `Val`.  External effects
(SQLAlchemy engines, the LLM, pandas internals) are modelled by explicit
oracle parameters or faithful list-level translations.
-/

namespace MyQuery

/-- A cell value as it appears in a result row: Python `None` (`null`),
a string, or an integer (any other scalar type behaves identically for
the merge logic, which never inspects values except by equality). -/
inductive Val where
  | null
  | str (s : String)
  | int (n : Int)
deriving DecidableEq, Repr

/-- A Python dict from column names to values (association list,
first-occurrence lookup). -/
abbrev Row := List (String × Val)

/-- Lookup in a Python dict: `d.get(k)` / `d[k]`, `none` when absent. -/
def getKey {α : Type} : List (String × α) → String → Option α
  | [], _ => none
  | p :: rest, k => if p.1 = k then some p.2 else getKey rest k

/-- Python dict assignment `d[k] = v`: overwrite the existing entry in
place, or append a new entry at the end. -/
def setKey {α : Type} : List (String × α) → String → α → List (String × α)
  | [], k, v => [(k, v)]
  | p :: rest, k, v => if p.1 = k then (k, v) :: rest else p :: setKey rest k v

/-! ### Sorted deduplication, modelling Python `sorted(list(set(xs)))` -/

/-- Insert a string into a strictly sorted list, keeping it strictly
sorted (no duplicates). -/
def sortedInsert (x : String) : List String → List String
  | [] => [x]
  | y :: ys => if x = y then y :: ys else if x < y then x :: y :: ys else y :: sortedInsert x ys

/-- `sorted(list(set(xs)))`: the strictly increasing enumeration of the
set of elements of `xs`. -/
def sortedDedup (l : List String) : List String := l.foldr sortedInsert []

/-! ### Fan-out results (`MultiDBQueryTool._run`, per-connection dicts) -/

/-- The per-connection result dict built by the fan-out loop.  A success
entry populates `success/columns/data/rowCount`; a failure entry
populates `success/error`.  All fields are optional because the Python
dict simply omits the keys of the other shape. -/
structure FanoutEntry where
  success : Bool
  columns : Option (List String)
  data : Option (List Row)
  rowCount : Option Nat
  error : Option String
deriving DecidableEq, Repr

/-- `{"success": True, "columns": ..., "data": ..., "row_count": ...}` -/
def mkSuccess (cols : List String) (data : List Row) (n : Nat) : FanoutEntry :=
  ⟨true, some cols, some data, some n, none⟩

/-- `{"success": False, "error": ...}` -/
def mkFailure (e : String) : FanoutEntry :=
  ⟨false, none, none, none, some e⟩

/-- Exactly one of the success / failure shapes is populated. -/
def shapeInvariant (r : FanoutEntry) : Prop :=
  (r.success = true ∧ r.columns.isSome ∧ r.data.isSome ∧ r.rowCount.isSome ∧ r.error = none)
  ∨ (r.success = false ∧ r.columns = none ∧ r.data = none ∧ r.rowCount = none ∧ r.error.isSome)

/-! ### Merged datasets (`_union_merge` / `_join_merge` return dicts) -/

/-- The dict returned by a successful merge (union or join); the
`metadata` sub-dict is flattened into `rowsPerSource`. -/
structure MergedDataset where
  success : Bool
  mergeType : String
  mergeKey : Option String
  sourceDatabases : List String
  columns : List String
  data : List Row
  rowCount : Nat
  rowsPerSource : List (String × Nat)
deriving DecidableEq, Repr

/-- The sorted union of all per-source column lists
(`sorted(list(all_columns))` over `result.get("columns", [])`). -/
def allUnionCols (rs : List (String × FanoutEntry)) : List String :=
  sortedDedup (rs.flatMap (fun p => p.2.columns.getD []))

/-- One output row of `_union_merge`: start from
`{"_source_db": db_name}` and assign every unioned column to
`row.get(col, None)`. -/
def buildUnionRow (name : String) (cols : List String) (row : Row) : Row :=
  cols.foldl (fun acc c => setKey acc c ((getKey row c).getD .null)) [("_source_db", Val.str name)]

/-- `MultiDBQueryTool._union_merge`: stack all rows of all (successful)
sources, tagging each with its origin and padding missing columns with
`None`. -/
def unionMerge (rs : List (String × FanoutEntry)) : MergedDataset :=
  let cols := allUnionCols rs
  let allData := rs.flatMap (fun p => (p.2.data.getD []).map (buildUnionRow p.1 cols))
  { success := true
    mergeType := "union"
    mergeKey := none
    sourceDatabases := rs.map (·.1)
    columns := "_source_db" :: cols
    data := allData
    rowCount := allData.length
    rowsPerSource := rs.map (fun p => (p.1, p.2.rowCount.getD 0)) }

/-! ### Fan-out execution (`MultiDBQueryTool._run`, lines 88-115)

The registry is the list of registered connection names
(`MultiDBManager.get_connection` returns an engine only for registered
names); the behaviour of an engine on a query is an oracle
`behavior : String → String → Except String (List String × List (List Val))`
returning either a raised error message or `(columns, fetched rows)`. -/

/-- `dict(zip(columns, row))`. -/
def zipDict (cols : List String) (vs : List Val) : Row :=
  (cols.zip vs).foldl (fun a p => setKey a p.1 p.2) []

/-- The body of the fan-out loop for one connection name. -/
def runOne (registry : List String)
    (behavior : String → String → Except String (List String × List (List Val)))
    (query : String) (n : String) : FanoutEntry :=
  if n ∈ registry then
    match behavior n query with
    | .ok (cols, rows) => mkSuccess cols (rows.map (zipDict cols)) rows.length
    | .error e => mkFailure e
  else mkFailure "Connection not found"

/-- The fan-out loop: build the `results` dict one connection at a time. -/
def fanOut (registry : List String)
    (behavior : String → String → Except String (List String × List (List Val)))
    (query : String) (names : List String) : List (String × FanoutEntry) :=
  names.foldl (fun acc n => setKey acc n (runOne registry behavior query n)) []

/-! ### Join merge (`MultiDBQueryTool._join_merge`, lines 231-302)

pandas is modelled at the list level: a `DF` is a column list plus rows
that carry exactly those columns (missing dict keys materialise as
`Val.null`, the model of `NaN`).  `pd.merge(..., how='outer', on=key)`
pairs each left row with its matches (or null-pads it), appends
unmatched right rows, sorts by the key, and matches equal keys —
including `NaN`/`None` with each other (`valMatch`); mismatched key
dtypes raise before any row is built (`mergeOuter`). -/

/-- A pandas DataFrame: ordered columns plus rows keyed by them. -/
structure DF where
  columns : List String
  data : List Row
deriving DecidableEq, Repr

/-- `pd.DataFrame(records)`: columns are the union of the dicts' keys in
order of first appearance; every row is re-materialised with all
columns, missing entries becoming `NaN` (`Val.null`). -/
def pdDataFrame (data : List Row) : DF :=
  let cols := data.foldl (fun acc r => acc ++ (r.map (·.1)).filter (fun c => ¬ acc.contains c)) []
  ⟨cols, data.map (fun r => cols.map (fun c => (c, (getKey r c).getD .null)))⟩

/-- The value of the merge key in a row (`NaN` when the column is
absent). -/
def keyOf (key : String) (r : Row) : Val :=
  (getKey r key).getD .null

/-- pandas key matching: equal keys join, and missing keys (`NaN` in a
numeric column, `None` in an object column) match each other — the
khash float table treats `NaN` as equal to `NaN`, and the object table
matches identical `None`. -/
def valMatch (v w : Val) : Bool :=
  v = w

/-- Whether a value is a string. -/
def isStr : Val → Bool
  | .str _ => true
  | _ => false

/-- Whether a column with these values gets the `object` dtype when a
DataFrame is built from row dicts: any string value (also mixed with
numbers), or nothing but `None`, makes the column `object`; columns of
numbers (with or without missing values) are numeric
(`int64`/`float64`). -/
def objectDtype (vals : List Val) : Bool :=
  vals.any isStr || vals.all (fun v => v = Val.null)

/-- The dtype name reported for a key column in the `pd.merge`
mismatch error (`int64` stands for the whole numeric class, whose
precise name — `int64` or `float64` — the model does not track). -/
def dtypeName (vals : List Val) : String :=
  if objectDtype vals then "object" else "int64"

/-- The key order of an outer-merge result, as `safe_sort` orders key
values: numbers before strings (each group ascending), missing keys
last. -/
def valLe (v w : Val) : Bool :=
  match v, w with
  | .int a, .int b => a ≤ b
  | .int _, .str _ => true
  | .int _, .null => true
  | .str a, .str b => a ≤ b
  | .str _, .null => true
  | .str _, .int _ => false
  | .null, .null => true
  | .null, _ => false

/-- `pd.merge(..., how='outer')` sorts the result by the join key
(even with `sort=False`); modelled by a stable insertion sort of the
rows under `valLe` on their key values. -/
def pdSortRows (key : String) (rows : List Row) : List Row :=
  List.insertionSort (fun a b => valLe (keyOf key a) (keyOf key b) = true) rows

/-- The suffix applied by `pd.merge(..., suffixes=('', sfx))` to a
right-hand non-key column that collides with a left column. -/
def mergeRn (key sfx : String) (L : DF) (c : String) : String :=
  if c ≠ key ∧ L.columns.contains c then c ++ sfx else c

/-- The unsorted row block of
`pd.merge(L, R, on=key, how='outer', suffixes=('', sfx))`: every left
row paired with its right matches (null-padded when unmatched),
followed by the unmatched right rows null-padded on the left. -/
def mergeOuterRaw (key sfx : String) (L R : DF) : DF :=
  let rn := mergeRn key sfx L
  let rrow := fun (r : Row) => r.map (fun p => (rn p.1, p.2))
  let rcols := R.columns.map rn
  let newCols := L.columns ++ rcols.filter (fun c => c ≠ key)
  let leftPart := L.data.flatMap fun l =>
    let ms := R.data.filter (fun r => valMatch (keyOf key l) (keyOf key r))
    if ms.isEmpty then
      [l ++ (rcols.filter (fun c => c ≠ key)).map (fun c => (c, Val.null))]
    else
      ms.map (fun r => l ++ (rrow r).filter (fun p => p.1 ≠ key))
  let rightPart :=
    (R.data.filter (fun r => ¬ L.data.any (fun l => valMatch (keyOf key l) (keyOf key r)))).map
      (fun r =>
        (L.columns.map (fun c => if c = key then (c, keyOf key r) else (c, Val.null)))
          ++ (rrow r).filter (fun p => p.1 ≠ key))
  ⟨newCols, leftPart ++ rightPart⟩

/-- The row/column construction of a successful `pd.merge(...)`: the
outer-join rows of `mergeOuterRaw`, ordered by their key values. -/
def mergeOuterJoin (key sfx : String) (L R : DF) : DF :=
  ⟨(mergeOuterRaw key sfx L R).columns,
    pdSortRows key (mergeOuterRaw key sfx L R).data⟩

/-- `pd.merge(L, R, on=key, how='outer', suffixes=('', sfx))`:
raises `ValueError` when one key column is `object`-typed and the
other numeric (`You are trying to merge on int64 and object
columns ...`); otherwise performs the outer join. -/
def mergeOuter (key sfx : String) (L R : DF) : Except String DF :=
  if objectDtype (L.data.map (keyOf key)) = objectDtype (R.data.map (keyOf key)) then
    .ok (mergeOuterJoin key sfx L R)
  else
    .error ("You are trying to merge on " ++ dtypeName (L.data.map (keyOf key))
      ++ " and " ++ dtypeName (R.data.map (keyOf key))
      ++ " columns. If you wish to proceed you should use pd.concat")

/-- `df.rename(columns={col: f"{col}_{db_name}" if col != merge_key
else col})`: rename every non-key column `c` to `c_<db_name>`. -/
def renameDF (mergeKey dbName : String) (df : DF) : DF :=
  let rn := fun c => if c = mergeKey then c else c ++ "_" ++ dbName
  DF.mk (df.columns.map rn)
    (df.data.map (fun r => r.map (fun q => (rn q.1, q.2))))

/-- The per-source preprocessing loop of `_join_merge` (one step per
`results` entry, left to right): skip empty-data sources, check the
merge key against the DataFrame's (data-derived) columns — failing at
the first offender — and rename the non-key columns. -/
def buildDfs (mergeKey : String) : List (String × FanoutEntry) →
    Except String (List (String × DF))
  | [] => .ok []
  | p :: rest =>
    let data := p.2.data.getD []
    if data.isEmpty then buildDfs mergeKey rest
    else
      let df := pdDataFrame data
      if mergeKey ∈ df.columns then
        match buildDfs mergeKey rest with
        | .error e => .error e
        | .ok dfs => .ok ((p.1, renameDF mergeKey p.1 df) :: dfs)
      else
        .error ("Merge key '" ++ mergeKey ++ "' not found in " ++ p.1)

/-- The sequential outer-join loop of `_join_merge` after the first
frame (`merged_df = pd.merge(merged_df, df, ...)`); a raised
`pd.merge` error propagates out of the loop. -/
def chainFoldE (key : String) (M : DF) : List (String × DF) → Except String DF
  | [] => .ok M
  | q :: rest =>
    match mergeOuter key ("_" ++ q.1) M q.2 with
    | .error e => .error e
    | .ok M' => chainFoldE key M' rest

/-- `MultiDBQueryTool._join_merge`. -/
def joinMerge (results : List (String × FanoutEntry)) (mergeKey : String) :
    Except String MergedDataset :=
  match buildDfs mergeKey results with
  | .error e => .error e
  | .ok [] => .error "No data available for join"
  | .ok ((_, df₀) :: rest) =>
    match chainFoldE mergeKey df₀ rest with
    | .error e => .error e
    | .ok m =>
      .ok
      { success := true
        mergeType := "join"
        mergeKey := some mergeKey
        sourceDatabases := results.map (·.1)
        columns := m.columns
        data := m.data
        rowCount := m.data.length
        rowsPerSource := results.map (fun p => (p.1, p.2.rowCount.getD 0)) }

/-! ### Merge dispatcher (`MultiDBQueryTool._merge_results`, lines 148-181) -/

/-- `MultiDBQueryTool._merge_results`: keep only successful entries,
fail when none remain, dispatch on the merge type; a falsy
(`None` / empty) merge key rejects join mode. -/
def mergeResultsFn (results : List (String × FanoutEntry)) (mergeType : String)
    (mergeKey : Option String) : Except String MergedDataset :=
  let successful := results.filter (fun p => p.2.success)
  if successful.isEmpty then
    .error "No successful results to merge"
  else if mergeType = "union" then
    .ok (unionMerge successful)
  else if mergeType = "join" then
    match mergeKey with
    | none => .error "merge_key is required for join operations"
    | some k =>
      if k = "" then .error "merge_key is required for join operations"
      else joinMerge successful k
  else
    .error ("Invalid merge_type: " ++ mergeType)

/-! ### The tool entry point (`MultiDBQueryTool._run`, lines 51-142) -/

/-- The structured value serialised by `_run` (`json.dumps` elided):
either the bare per-connection results dict, the merged dataset, the
graceful-degradation note `{merge_error, note, individual_results}`, or
the no-connections message. -/
inductive RunOutput where
  | noConnections
  | plain (results : List (String × FanoutEntry))
  | merged (m : MergedDataset)
  | mergeFailed (err : String) (results : List (String × FanoutEntry))
deriving DecidableEq, Repr

/-- `MultiDBQueryTool._run` after connection-list resolution:
fan out, then merge only when requested and more than one entry exists,
degrading to the unmerged results when the merge raises. -/
def runMulti (registry : List String)
    (behavior : String → String → Except String (List String × List (List Val)))
    (query : String) (connList : List String)
    (mergeRequested : Bool) (mergeType : String) (mergeKey : Option String) : RunOutput :=
  if connList.isEmpty then .noConnections
  else
    let results := fanOut registry behavior query connList
    if mergeRequested ∧ results.length > 1 then
      match mergeResultsFn results mergeType mergeKey with
      | .ok m => .merged m
      | .error e => .mergeFailed e results
    else
      .plain results

/-! ### Single-connection execution (`ExecuteQueryTool._run`, lines 35-102) -/

/-- Python `str` whitespace as stripped by `strip()` (ASCII range). -/
def isPySpace (c : Char) : Bool :=
  c == ' ' || c == '\t' || c == '\n' || c == '\r' || c == '\x0b' || c == '\x0c'

/-- Python `s.strip()`: drop whitespace from both ends. -/
def pyStrip (s : List Char) : List Char :=
  ((s.dropWhile isPySpace).reverse.dropWhile isPySpace).reverse

/-- `ExecuteQueryTool._is_destructive_query`: prefix check on the
uppercased (`upper()`, modelled for the ASCII range by
`Char.toUpper`), stripped statement. -/
def isDestructiveQuery (query : String) : Bool :=
  let q := pyStrip (query.data.map Char.toUpper)
  ["DROP", "DELETE", "TRUNCATE", "UPDATE", "ALTER", "CREATE"].any
    (fun k => k.data.isPrefixOf q)

/-- The return value of `ExecuteQueryTool._run` (`json.dumps` elided):
the no-connection message, the destructive-query refusal message, a
success result dict, or an error result dict. -/
inductive ExecOutput where
  | noConnection
  | destructiveRefused
  | ok (columns : List String) (data : List Row) (rowCount : Nat) (truncated : Bool)
  | failed (error : String) (query : String)
deriving DecidableEq, Repr

/-- `ExecuteQueryTool._run`: guard, then execute through the engine
oracle (`engineExec` returns the raised message or `(columns, rows)`;
the row stream is cut to `max_rows` by `fetchmany`). -/
def executeQueryRun (engine : Option Nat)
    (engineExec : Nat → String → Except String (List String × List (List Val)))
    (sqlQuery : String) (maxRows : Nat) : ExecOutput :=
  match engine with
  | none => .noConnection
  | some e =>
    if isDestructiveQuery sqlQuery then .destructiveRefused
    else
      match engineExec e sqlQuery with
      | .error err => .failed err sqlQuery
      | .ok (cols, rows) =>
        let fetched := rows.take maxRows
        let data := fetched.map (zipDict cols)
        .ok cols data data.length (decide (data.length ≥ maxRows))

/-! ### MCP protocol data (`mcp/protocol.py`) -/

/-- `MCPContext` (`mcp/protocol.py` lines 37-48). -/
structure MCPContext where
  sessionId : String
  connected : Bool
  dbType : Option String
  dbName : Option String
  schemaLoaded : Bool
  tableCount : Nat
  tableNames : List String
  lastQuery : Option String
  lastResultCount : Option Nat
deriving DecidableEq, Repr

/-- `MCPContext(session_id=sid)`: every other field takes its declared
default. -/
def freshContext (sid : String) : MCPContext :=
  { sessionId := sid
    connected := false
    dbType := none
    dbName := none
    schemaLoaded := false
    tableCount := 0
    tableNames := []
    lastQuery := none
    lastResultCount := none }

/-- `MCPActionType` (a closed enum; pydantic rejects any other tag
before dispatch, so the dispatcher's `Unknown action` branch is
unreachable). -/
inductive MCPActionType where
  | connectDb
  | getSchema
  | generateQuery
  | executeQuery
  | analyzeResults
  | getStatus
  | chat
deriving DecidableEq, Repr

/-- The `parameters` dict of a request (`parameters.get(...)` fields
used by the dispatcher; an absent key is `none`). -/
structure ActionParams where
  dbType : Option String := none
  dbName : Option String := none
  dbHost : Option String := none
  dbPort : Option Nat := none
  dbUser : Option String := none
  dbPassword : Option String := none
  includeSampleData : Option Bool := none
  prompt : Option String := none
  chatHistory : Option String := none
  queryResultJson : Option String := none
  message : Option String := none
  debug : Option Bool := none
deriving DecidableEq, Repr

/-- `MCPRequest`. -/
structure MCPRequest where
  action : MCPActionType
  params : ActionParams
  sessionId : Option String
deriving DecidableEq, Repr

/-! ### The agent's connection state (`tools/connect_db_tool.py`,
`core/agent.py`)

An engine is an opaque handle (`Nat`); `createEngine` maps a connection
URL to the engine `create_engine` would build and `probe` says whether
`SELECT 1` succeeds on a given engine (used both by the post-creation
test and by `is_connected`). -/

/-- The agent state visible to the dispatcher: the engine held by its
`ConnectDBTool` (`_engine`, `None` until a `create_engine` call). -/
structure Agent where
  engine : Option Nat
deriving DecidableEq, Repr

/-- `QueryAgent()`: a fresh agent holds no engine. -/
def freshAgent : Agent := ⟨none⟩

/-- The connection URL `ConnectDBTool._run` builds for a parameter set
(`db_type.lower()` is modelled for the ASCII range by `Char.toLower`);
`none` when the type is missing or unsupported. -/
def connectUrl (p : ActionParams) : Option String :=
  match p.dbType with
  | none => none
  | some t =>
    let tl := t.data.map Char.toLower
    let name := p.dbName.getD "None"
    if tl = "sqlite".data then some ("sqlite:///" ++ name)
    else if tl = "postgresql".data then
      some ("postgresql://" ++ p.dbUser.getD "None" ++ ":" ++ p.dbPassword.getD "None"
        ++ "@" ++ p.dbHost.getD "localhost" ++ ":" ++ toString (p.dbPort.getD 5432)
        ++ "/" ++ name)
    else if tl = "mysql".data then
      some ("mysql+pymysql://" ++ p.dbUser.getD "None" ++ ":" ++ p.dbPassword.getD "None"
        ++ "@" ++ p.dbHost.getD "localhost" ++ ":" ++ toString (p.dbPort.getD 3306)
        ++ "/" ++ name)
    else none

/-- `ConnectDBTool._run`: build the URL (a missing or unsupported type
fails before any engine is created, leaving `_engine` alone), install
the new engine, then probe it; the new engine stays installed even when
the probe fails.  A `None` `db_type` raises inside the `try` and is
caught (`'NoneType' object has no attribute 'lower'`). -/
def connectDbRun (createEngine : String → Nat) (probe : Nat → Bool)
    (agent : Agent) (p : ActionParams) : String × Agent :=
  match p.dbType with
  | none =>
    ("❌ Failed to connect to database: 'NoneType' object has no attribute 'lower'", agent)
  | some t =>
    match connectUrl p with
    | none => ("❌ Unsupported database type: " ++ t, agent)
    | some url =>
      let e := createEngine url
      let agent' : Agent := ⟨some e⟩
      if probe e then
        ("✅ Successfully connected to " ++ t ++ " database: " ++ p.dbName.getD "None", agent')
      else
        ("❌ Failed to connect to database: probe failed", agent')

/-- `ConnectDBTool.is_connected` (also `QueryAgent.is_connected`):
no engine, or the probe statement fails, means not connected. -/
def isConnected (probe : Nat → Bool) (a : Agent) : Bool :=
  match a.engine with
  | none => false
  | some e => probe e

/-! ### The action dispatcher (`MCPServer._execute_action`, lines 145-240) -/

/-- The `data` payload of a successful response, by action. -/
inductive ActionData where
  | message (s : String)
  | schema (totalTables : Nat) (names : List String)
  | sqlQuery (q : String)
  | execResults (sqlQuery : Option String)
  | analysis (s : String)
  | status (connected : Bool) (tables : List String) (ctx : MCPContext)
  | chatResp (s : String)
deriving DecidableEq, Repr

/-- Oracles for the agent operations whose outcome depends on the
external world (database, LLM): each returns the raised message or the
produced value.  `getSchema` yields the parsed `(total_tables,
table-name list)` of the schema JSON; `executeFlow` yields the
`sql_query` field of the flow's result dict (`none` when it stayed
`None`). -/
structure AgentOracle where
  createEngine : String → Nat
  probe : Nat → Bool
  getSchema : Agent → Bool → Except String (Nat × List String)
  generateQuery : Agent → Option String → String → Except String String
  executeFlow : Agent → Option String → Bool → Except String (Option String)
  analyze : Agent → Option String → Option String → Except String String
  chatFn : Agent → Option String → Bool → Except String String
  tableList : Agent → List String

/-- `MCPServer._execute_action`: one branch per action.  Context
updates are exactly the source's: `CONNECT_DB` updates `connected`,
`db_type`, `db_name` when the agent reports connected afterwards;
`GET_SCHEMA` overwrites `schema_loaded`, `table_count`, `table_names`;
`EXECUTE_QUERY` sets `last_query` when the flow produced a truthy
`sql_query`; every other branch leaves the context alone.  An
`Except.error` models an exception escaping to `execute_action` (in
every branch this happens before any context field is written). -/
def execAction (o : AgentOracle) (agent : Agent) (ctx : MCPContext)
    (action : MCPActionType) (params : ActionParams) :
    Except String (ActionData × MCPContext × Agent) :=
  match action with
  | .connectDb =>
    let r := connectDbRun o.createEngine o.probe agent params
    let ctx' :=
      if isConnected o.probe r.2 then
        { ctx with connected := true, dbType := params.dbType, dbName := params.dbName }
      else ctx
    .ok (.message r.1, ctx', r.2)
  | .getSchema =>
    match o.getSchema agent (params.includeSampleData.getD false) with
    | .error e => .error e
    | .ok s =>
      .ok (.schema s.1 s.2,
        { ctx with schemaLoaded := true, tableCount := s.1, tableNames := s.2 }, agent)
  | .generateQuery =>
    match o.getSchema agent false with
    | .error e => .error e
    | .ok _ =>
      match o.generateQuery agent params.prompt (params.chatHistory.getD "") with
      | .error e => .error e
      | .ok sql => .ok (.sqlQuery sql, ctx, agent)
  | .executeQuery =>
    match o.executeFlow agent params.prompt (params.debug.getD false) with
    | .error e => .error e
    | .ok sq =>
      .ok (.execResults sq,
        match sq with
        | some s => if s = "" then ctx else { ctx with lastQuery := some s }
        | none => ctx,
        agent)
  | .analyzeResults =>
    match o.analyze agent params.queryResultJson params.prompt with
    | .error e => .error e
    | .ok a => .ok (.analysis a, ctx, agent)
  | .getStatus =>
    .ok (.status (isConnected o.probe agent) (o.tableList agent) ctx, ctx, agent)
  | .chat =>
    match o.chatFn agent params.message (params.debug.getD false) with
    | .error e => .error e
    | .ok r => .ok (.chatResp r, ctx, agent)

/-! ### The HTTP entry point (`MCPServer.execute_action`, lines 72-111) -/

/-- `MCPResponse`. -/
structure MCPResponse where
  success : Bool
  data : Option ActionData
  error : Option String
  sessionId : Option String
  context : Option MCPContext
deriving DecidableEq, Repr

/-- The server's session storage (`self.sessions` keeps the context of
each session, `self.agents` its agent). -/
structure ServerState where
  sessions : List (String × MCPContext)
  agents : List (String × Agent)
deriving DecidableEq, Repr

/-- The id a request is served under:
`request.session_id or str(uuid.uuid4())` — a falsy id (absent or
empty) is replaced by the fresh uuid drawn for this call. -/
def servingId (req : MCPRequest) (freshUuid : String) : String :=
  match req.sessionId with
  | some s => if s = "" then freshUuid else s
  | none => freshUuid

/-- `MCPServer.execute_action`: resolve the session id, get-or-create
the session and agent under that id, dispatch, store the updated
context and agent, and answer; an exception from the dispatch becomes
an error response carrying the request's original session id. -/
def executeAction (o : AgentOracle) (st : ServerState) (req : MCPRequest)
    (freshUuid : String) : ServerState × MCPResponse :=
  let sid := servingId req freshUuid
  let st₁ :=
    if (getKey st.sessions sid).isSome then st
    else
      { sessions := setKey st.sessions sid (freshContext sid)
        agents := setKey st.agents sid freshAgent }
  match getKey st₁.sessions sid, getKey st₁.agents sid with
  | some ctx, some agent =>
    (match execAction o agent ctx req.action req.params with
    | .ok (data, ctx', agent') =>
      ({ sessions := setKey st₁.sessions sid ctx', agents := setKey st₁.agents sid agent' },
        { success := true, data := some data, error := none,
          sessionId := some sid, context := some ctx' })
    | .error e =>
      (st₁,
        { success := false, data := none, error := some e,
          sessionId := req.sessionId, context := none }))
  | _, _ =>
    -- a session present in one map but not the other would raise KeyError
    -- in the handler and be caught; unreachable for states built by this
    -- function
    (st₁,
      { success := false, data := none, error := some ("KeyError: " ++ sid),
        sessionId := req.sessionId, context := none })

/-! ### Join-chain invariants (used to settle the join-merge claim) -/

/-- Well-formedness of one (renamed) per-source DataFrame entering the
join chain: rows carry exactly the declared columns, key values are
pairwise distinct, the key column is present, and there is at least
one row. -/
def dfOK (k : String) (d : DF) : Prop :=
  (∀ r ∈ d.data, r.map (·.1) = d.columns)
    ∧ (d.data.map (keyOf k)).Nodup
    ∧ k ∈ d.columns
    ∧ d.data ≠ []

/-- The column list of the chained outer join over a list of
DataFrames: the first frame's columns, then every later frame's
non-key columns. -/
def chainCols (k : String) : List DF → List String
  | [] => []
  | d :: rest => d.columns ++ rest.flatMap (fun d' => d'.columns.filter (fun c => c ≠ k))

/-- The invariant carried along the chain of outer joins: after
processing the frames `P`, the accumulated frame `M` has the chained
columns, rows keyed exactly by them, one row per key value (the union
of the processed frames' key values), and `None` filled in for every
processed frame lacking a row's key. -/
structure ChainInv (k : String) (P : List DF) (M : DF) : Prop where
  colsEq : M.columns = chainCols k P
  rowsKeys : ∀ r ∈ M.data, r.map (·.1) = M.columns
  keyMem : k ∈ M.columns
  keysNodup : (M.data.map (keyOf k)).Nodup
  keysUnion : ∀ v, v ∈ M.data.map (keyOf k) ↔ ∃ d ∈ P, v ∈ d.data.map (keyOf k)
  nullFill : ∀ r ∈ M.data, ∀ d ∈ P, keyOf k r ∉ d.data.map (keyOf k) →
    ∀ c ∈ d.columns, c ≠ k → getKey r c = some Val.null

/-- The hypotheses under which the claim's join-merge description
holds: every data-carrying source contains the key (in its data-derived
columns); at least one source has data; per source the key values are
pairwise distinct; the renaming produces globally fresh column names
(no renamed name equals the key, and all chained column names are
pairwise distinct); and all data-carrying sources' key columns fall in
the same dtype class (`pd.merge` raises on an `object`-vs-numeric key
pair). -/
def joinPrecond (k : String) (results : List (String × FanoutEntry)) : Prop :=
  (∀ p ∈ results, (p.2.data.getD []) = []
      ∨ k ∈ (pdDataFrame (p.2.data.getD [])).columns)
    ∧ results.filter (fun p => !(p.2.data.getD []).isEmpty) ≠ []
    ∧ (∀ p ∈ results, ((p.2.data.getD []).map (keyOf k)).Nodup)
    ∧ (∀ p ∈ results, ∀ c ∈ (pdDataFrame (p.2.data.getD [])).columns, c ≠ k →
        c ++ "_" ++ p.1 ≠ k)
    ∧ (chainCols k ((results.filter (fun p => !(p.2.data.getD []).isEmpty)).map
        (fun p => renameDF k p.1 (pdDataFrame (p.2.data.getD []))))).Nodup
    ∧ (∀ p ∈ results, ∀ q ∈ results,
        (p.2.data.getD []) ≠ [] → (q.2.data.getD []) ≠ [] →
        objectDtype ((p.2.data.getD []).map (keyOf k))
          = objectDtype ((q.2.data.getD []).map (keyOf k)))

/-- A server handling a sequence of requests (each paired with the
fresh uuid drawn for it), starting from a given state. -/
def serverFold (o : AgentOracle) (st : ServerState)
    (reqs : List (MCPRequest × String)) : ServerState :=
  reqs.foldl (fun s rq => (executeAction o s rq.1 rq.2).1) st

/-- Whether an `Except` value is a success. -/
def isOkE {ε α : Type} : Except ε α → Bool
  | .ok _ => true
  | .error _ => false

/-! ### Concrete fixtures used by counterexamples and witnesses -/

/-- A single successful source whose column is literally named
`_source_db`, carrying the value `"X"`. -/
def c1ex : List (String × FanoutEntry) :=
  [("A", mkSuccess ["_source_db"] [[("_source_db", Val.str "X")]] 1)]

/-- A single successful source whose `id` column holds the value `1`
twice. -/
def c2ex : List (String × FanoutEntry) :=
  [("A", mkSuccess ["id", "x"]
    [[("id", Val.int 1), ("x", Val.str "a")], [("id", Val.int 1), ("x", Val.str "b")]] 2)]

/-- Source `A` has an `id` column with one row; source `B` succeeded
with zero rows and its declared columns lack `id`. -/
def c3ex : List (String × FanoutEntry) :=
  [("A", mkSuccess ["id"] [[("id", Val.int 1)]] 1),
   ("B", mkSuccess ["x"] [] 0)]

/-- Source `A` with an `id` column; source `B` with one data row and
no `id` column. -/
def c3bEx : List (String × FanoutEntry) :=
  [("A", mkSuccess ["id"] [[("id", Val.int 1)]] 1),
   ("B", mkSuccess ["x"] [[("x", Val.int 5)]] 1)]

/-- Two sources for witness merges: `A` with rows `id` 1, 2 and `B`
with rows `id` 2, 3 (the spec's join outer-match example). -/
def wAB : List (String × FanoutEntry) :=
  [("A", mkSuccess ["id", "x"]
    [[("id", Val.int 1), ("x", Val.str "a")], [("id", Val.int 2), ("x", Val.str "b")]] 2),
   ("B", mkSuccess ["id", "y"]
    [[("id", Val.int 2), ("y", Val.str "c")], [("id", Val.int 3), ("y", Val.str "d")]] 2)]

/-- An oracle whose behaviour is fixed and total, for closed instances. -/
def oracle0 : AgentOracle :=
  { createEngine := fun _ => 0
    probe := fun _ => true
    getSchema := fun _ _ => .ok (2, ["t1", "t2"])
    generateQuery := fun _ _ _ => .ok "SELECT 1"
    executeFlow := fun _ _ _ => .ok (some "SELECT 1")
    analyze := fun _ _ _ => .ok "analysis"
    chatFn := fun _ _ _ => .ok "hello"
    tableList := fun _ => [] }

/-- An agent that already holds a live engine (its probe succeeds under
`oracle0`). -/
def agentLive : Agent := ⟨some 5⟩

/-- A context of a session that successfully connected to
`sqlite`/`old.db` earlier. -/
def ctxConnected : MCPContext :=
  { freshContext "s" with connected := true, dbType := some "sqlite", dbName := some "old.db" }

/-- A `CONNECT_DB` parameter set naming an unsupported database type. -/
def pOracleDb : ActionParams :=
  { dbType := some "oracle", dbName := some "new.db" }

/-- An engine behaviour that always succeeds with one row. -/
def engineExecOk : Nat → String → Except String (List String × List (List Val)) :=
  fun _ _ => .ok (["c"], [[Val.int 7]])

/-- An engine behaviour that always raises. -/
def engineExecErr : Nat → String → Except String (List String × List (List Val)) :=
  fun _ _ => .error "boom"

/-- A per-connection behaviour that always succeeds with one row. -/
def behaviorOk : String → String → Except String (List String × List (List Val)) :=
  fun _ _ => .ok (["c"], [[Val.int 7]])

/-! ## Theorems

First the library of facts about the dictionary and sorting primitives,
then one theorem (plus counterexample / witness) per claim. -/

theorem getKey_setKey {α : Type} (d : List (String × α)) (k k' : String) (v : α) :
    getKey (setKey d k v) k' = if k' = k then some v else getKey d k' := by
  induction d with
  | nil =>
    by_cases h : k' = k
    · simp [setKey, getKey, h]
    · simp [setKey, getKey, h, Ne.symm h]
  | cons p rest ih =>
    by_cases hp : p.1 = k
    · by_cases h : k' = k
      · simp [setKey, getKey, hp, h]
      · simp [setKey, getKey, hp, h, Ne.symm h]
    · by_cases hpk' : p.1 = k'
      · have h : ¬ k' = k := fun hh => hp (hpk'.trans hh)
        simp [setKey, getKey, hp, hpk', h]
      · simp [setKey, getKey, hp, hpk', ih]

theorem getKey_setKey_self {α : Type} (d : List (String × α)) (k : String) (v : α) :
    getKey (setKey d k v) k = some v := by
  simp [getKey_setKey]

theorem getKey_setKey_ne {α : Type} (d : List (String × α)) {k k' : String} (v : α)
    (h : k' ≠ k) : getKey (setKey d k v) k' = getKey d k' := by
  simp [getKey_setKey, h]

/-- Setting every column of `cols` (value depending only on the column)
on top of `init`, as done when building a merged row. -/
theorem getKey_foldl_setKey {α : Type} (cols : List String) (f : String → α)
    (init : List (String × α)) (k : String) :
    getKey (cols.foldl (fun a c => setKey a c (f c)) init) k =
      if k ∈ cols then some (f k) else getKey init k := by
  induction cols generalizing init with
  | nil => simp
  | cons c rest ih =>
    simp only [List.foldl_cons, ih, List.mem_cons]
    by_cases hk : k ∈ rest
    · simp [hk]
    · by_cases hc : k = c
      · simp [hk, hc, getKey_setKey_self]
      · simp [hk, hc, getKey_setKey_ne _ _ hc]

theorem mem_sortedInsert (a x : String) (l : List String) :
    a ∈ sortedInsert x l ↔ a = x ∨ a ∈ l := by
  induction l with
  | nil => simp [sortedInsert]
  | cons y ys ih =>
    by_cases hxy : x = y
    · subst hxy
      simp [sortedInsert]
    · by_cases hlt : x < y
      · simp [sortedInsert, hxy, hlt, List.mem_cons]
      · simp only [sortedInsert, if_neg hxy, if_neg hlt, List.mem_cons, ih]
        tauto

theorem mem_sortedDedup (a : String) (l : List String) :
    a ∈ sortedDedup l ↔ a ∈ l := by
  induction l with
  | nil => simp [sortedDedup]
  | cons x xs ih =>
    simp only [sortedDedup, List.foldr_cons] at *
    rw [mem_sortedInsert, ih, List.mem_cons]

theorem sorted_sortedInsert (x : String) (l : List String)
    (h : l.Pairwise (· < ·)) : (sortedInsert x l).Pairwise (· < ·) := by
  induction l with
  | nil => simp [sortedInsert]
  | cons y ys ih =>
    rcases List.pairwise_cons.mp h with ⟨hy, hys⟩
    by_cases hxy : x = y
    · simpa [sortedInsert, hxy] using h
    · by_cases hlt : x < y
      · have heq : sortedInsert x (y :: ys) = x :: y :: ys := by
          simp [sortedInsert, hxy, hlt]
        rw [heq]
        refine List.pairwise_cons.mpr ⟨?_, h⟩
        intro b hb
        rcases List.mem_cons.mp hb with hb | hb
        · exact hb ▸ hlt
        · exact lt_trans hlt (hy b hb)
      · have hyx : y < x := lt_of_le_of_ne (not_lt.mp hlt) (Ne.symm hxy)
        have heq : sortedInsert x (y :: ys) = y :: sortedInsert x ys := by
          simp [sortedInsert, hxy, hlt]
        rw [heq]
        refine List.pairwise_cons.mpr ⟨?_, ih hys⟩
        intro b hb
        rcases (mem_sortedInsert b x ys).mp hb with hb | hb
        · exact hb ▸ hyx
        · exact hy b hb

theorem sorted_sortedDedup (l : List String) :
    (sortedDedup l).Pairwise (· < ·) := by
  induction l with
  | nil => simp [sortedDedup]
  | cons x xs ih => exact sorted_sortedInsert x _ ih

/-! ### C1: the union merge -/

theorem mem_allUnionCols (rs : List (String × FanoutEntry)) (c : String) :
    c ∈ allUnionCols rs ↔ ∃ p ∈ rs, c ∈ p.2.columns.getD [] := by
  simp [allUnionCols, mem_sortedDedup, List.mem_flatMap]

/-- C1 counterexample: the claim requires every output row of a union
merge to carry `_source_db` equal to its source's name.  With a single
successful source named `A` whose one column is literally `_source_db`
(value `"X"`), `_union_merge` overwrites the provenance tag during the
column-fill loop: the only output row carries `_source_db = "X"`, not
`"A"`. -/
theorem c1_source_db_overwritten :
    (unionMerge c1ex).data.map (fun r => getKey r "_source_db")
        = [some (Val.str "X")]
      ∧ c1ex.map (·.1) = ["A"]
      ∧ Val.str "X" ≠ Val.str "A" := by
  refine ⟨?_, rfl, by decide⟩
  rfl

/-- C1 (amended): for every mapping of successful per-source results in
which no source column is itself named `_source_db`, the merged
dataset's columns are `_source_db` followed by the strictly sorted
union of all per-source column names; every output row stems from a
source row, carries `_source_db` equal to that source's name and, for
each unioned column, the source row's value if present and `None`
otherwise; and the merged `row_count` is the sum of all source row
counts. -/
theorem c1_union_merge (rs : List (String × FanoutEntry))
    (h : ∀ p ∈ rs, "_source_db" ∉ p.2.columns.getD []) :
    (unionMerge rs).columns = "_source_db" :: allUnionCols rs
      ∧ (allUnionCols rs).Pairwise (· < ·)
      ∧ (∀ c, c ∈ allUnionCols rs ↔ ∃ p ∈ rs, c ∈ p.2.columns.getD [])
      ∧ (unionMerge rs).rowCount = (rs.map (fun p => (p.2.data.getD []).length)).sum
      ∧ (∀ r ∈ (unionMerge rs).data, ∃ p, p ∈ rs ∧ ∃ row ∈ p.2.data.getD [],
          getKey r "_source_db" = some (Val.str p.1)
            ∧ ∀ c ∈ allUnionCols rs, getKey r c = some ((getKey row c).getD Val.null))
      ∧ (∀ p ∈ rs, ∀ row ∈ p.2.data.getD [],
          buildUnionRow p.1 (allUnionCols rs) row ∈ (unionMerge rs).data) := by
  have hsrc : "_source_db" ∉ allUnionCols rs := by
    rw [mem_allUnionCols]
    rintro ⟨p, hp, hc⟩
    exact h p hp hc
  have hdata : (unionMerge rs).data
      = rs.flatMap (fun p => (p.2.data.getD []).map (buildUnionRow p.1 (allUnionCols rs))) := rfl
  refine ⟨rfl, sorted_sortedDedup _, fun c => mem_allUnionCols rs c, ?_, ?_, ?_⟩
  · show (rs.flatMap fun p => (p.2.data.getD []).map (buildUnionRow p.1 (allUnionCols rs))).length
        = _
    rw [List.length_flatMap]
    congr 1
    refine List.map_congr_left ?_
    intro p _
    simp
  · intro r hr
    rw [hdata, List.mem_flatMap] at hr
    obtain ⟨p, hp, hr⟩ := hr
    rw [List.mem_map] at hr
    obtain ⟨row, hrow, hbuild⟩ := hr
    refine ⟨p, hp, row, hrow, ?_, ?_⟩
    · rw [← hbuild]
      unfold buildUnionRow
      rw [getKey_foldl_setKey, if_neg hsrc]
      simp [getKey]
    · intro c hc
      rw [← hbuild]
      unfold buildUnionRow
      rw [getKey_foldl_setKey, if_pos hc]
  · intro p hp row hrow
    rw [hdata, List.mem_flatMap]
    exact ⟨p, hp, List.mem_map_of_mem _ hrow⟩

/-- C1 witness: the amended theorem applied to the spec's own example
(source `A` with columns `[id, name]`, source `B` with `[id, email]`):
merged columns are `[_source_db, email, id, name]` and the row count
is the sum of the source row counts. -/
theorem c1_union_merge_witness :
    (unionMerge wAB).columns = "_source_db" :: allUnionCols wAB
      ∧ (unionMerge wAB).rowCount
          = (wAB.map (fun p => (p.2.data.getD []).length)).sum := by
  have h := c1_union_merge wAB (by decide)
  exact ⟨h.1, h.2.2.2.1⟩

/-! ### C4, C5, C9: the fan-out loop and the tool entry point -/

theorem mem_setKey {α : Type} {d : List (String × α)} {k : String} {v : α}
    {p : String × α} (h : p ∈ setKey d k v) : p = (k, v) ∨ p ∈ d := by
  induction d with
  | nil => simpa [setKey] using h
  | cons q rest ih =>
    by_cases hq : q.1 = k
    · simp only [setKey, if_pos hq, List.mem_cons] at h
      rcases h with h | h
      · exact Or.inl h
      · exact Or.inr (List.mem_cons_of_mem _ h)
    · simp only [setKey, if_neg hq, List.mem_cons] at h
      rcases h with h | h
      · exact Or.inr (h ▸ List.mem_cons_self _ _)
      · rcases ih h with h | h
        · exact Or.inl h
        · exact Or.inr (List.mem_cons_of_mem _ h)

theorem keys_setKey {α : Type} (d : List (String × α)) (k : String) (v : α) :
    (setKey d k v).map (·.1)
      = if k ∈ d.map (·.1) then d.map (·.1) else d.map (·.1) ++ [k] := by
  induction d with
  | nil => simp [setKey]
  | cons q rest ih =>
    by_cases hq : q.1 = k
    · simp [setKey, hq]
    · by_cases hmem : k ∈ rest.map (·.1)
      · simp [setKey, hq, ih, hmem, Ne.symm hq]
      · simp [setKey, hq, ih, hmem, Ne.symm hq]

theorem nodup_keys_setKey {α : Type} (d : List (String × α)) (k : String) (v : α)
    (h : (d.map (·.1)).Nodup) : ((setKey d k v).map (·.1)).Nodup := by
  rw [keys_setKey]
  by_cases hmem : k ∈ d.map (·.1)
  · simpa [hmem] using h
  · rw [if_neg hmem]
    refine List.Nodup.append h (List.nodup_singleton k) ?_
    intro a ha hb
    rw [List.mem_singleton] at hb
    exact hmem (hb ▸ ha)

theorem mem_keys_foldl_setKey {α : Type} (names : List String) (f : String → α)
    (acc : List (String × α)) (n : String) :
    n ∈ (names.foldl (fun a m => setKey a m (f m)) acc).map (·.1)
      ↔ n ∈ names ∨ n ∈ acc.map (·.1) := by
  induction names generalizing acc with
  | nil => simp
  | cons m rest ih =>
    simp only [List.foldl_cons, ih, List.mem_cons]
    rw [keys_setKey]
    by_cases hmem : m ∈ acc.map (·.1)
    · rw [if_pos hmem]
      constructor
      · tauto
      · rintro ((rfl | h) | h)
        · exact Or.inr hmem
        · exact Or.inl h
        · exact Or.inr h
    · rw [if_neg hmem]
      simp only [List.mem_append, List.mem_singleton]
      tauto

theorem nodup_keys_foldl_setKey {α : Type} (names : List String) (f : String → α)
    (acc : List (String × α)) (h : (acc.map (·.1)).Nodup) :
    ((names.foldl (fun a m => setKey a m (f m)) acc).map (·.1)).Nodup := by
  induction names generalizing acc with
  | nil => exact h
  | cons m rest ih => exact ih _ (nodup_keys_setKey _ _ _ h)

theorem mem_foldl_setKey {α : Type} (names : List String) (f : String → α)
    (acc : List (String × α)) (p : String × α)
    (h : p ∈ names.foldl (fun a m => setKey a m (f m)) acc) :
    p ∈ acc ∨ p.2 = f p.1 := by
  induction names generalizing acc with
  | nil => exact Or.inl h
  | cons m rest ih =>
    rcases ih _ h with h' | h'
    · rcases mem_setKey h' with h'' | h''
      · right
        rw [h'']
      · exact Or.inl h''
    · exact Or.inr h'

theorem shape_runOne (registry : List String)
    (behavior : String → String → Except String (List String × List (List Val)))
    (query n : String) : shapeInvariant (runOne registry behavior query n) := by
  by_cases h : n ∈ registry
  · simp only [runOne, if_pos h]
    rcases behavior n query with e | v
    · simp [mkFailure, shapeInvariant]
    · simp [mkSuccess, shapeInvariant]
  · simp [runOne, h, mkFailure, shapeInvariant]

/-- C4 (confirmed): the fan-out produces, for every requested name,
exactly one entry, whose value is a function of that name alone (the
registry lookup and that connection's behaviour) — so a failure of one
connection can never alter a sibling's entry, and the loop never
escalates a per-connection failure.  A name outside the registry gets
the failure entry `Connection not found`, and every entry satisfies
the success-xor-failure shape invariant. -/
theorem c4_fanout_isolation (registry : List String)
    (behavior : String → String → Except String (List String × List (List Val)))
    (query : String) (names : List String) :
    (∀ n, getKey (fanOut registry behavior query names) n
        = if n ∈ names then some (runOne registry behavior query n) else none)
      ∧ (∀ n, n ∉ registry → runOne registry behavior query n
          = mkFailure "Connection not found")
      ∧ (∀ p ∈ fanOut registry behavior query names, shapeInvariant p.2)
      ∧ (∀ n, ((fanOut registry behavior query names).map (·.1)).count n
          = if n ∈ names then 1 else 0) := by
  refine ⟨?_, ?_, ?_, ?_⟩
  · intro n
    unfold fanOut
    rw [getKey_foldl_setKey]
    simp [getKey]
  · intro n h
    simp [runOne, h]
  · intro p hp
    rcases mem_foldl_setKey _ _ _ _ hp with h | h
    · simp at h
    · rw [show p.2 = runOne registry behavior query p.1 from h]
      exact shape_runOne _ _ _ _
  · intro n
    have hnd : ((fanOut registry behavior query names).map (·.1)).Nodup :=
      nodup_keys_foldl_setKey _ _ _ (by simp)
    rw [List.count_eq_of_nodup hnd]
    congr 1
    simp only [eq_iff_iff]
    rw [fanOut, mem_keys_foldl_setKey]
    simp

/-- C4 witness: with registry `[a]`, a behaviour that succeeds, and
requested names `[a, z]`, the entry for `a` is the success result, the
entry for the unregistered `z` is the `Connection not found` failure,
and each name has exactly one entry. -/
theorem c4_fanout_isolation_witness :
    getKey (fanOut ["a"] behaviorOk "q" ["a", "z"]) "z"
        = some (mkFailure "Connection not found")
      ∧ ((fanOut ["a"] behaviorOk "q" ["a", "z"]).map (·.1)).count "a" = 1 := by
  have h := c4_fanout_isolation ["a"] behaviorOk "q" ["a", "z"]
  constructor
  · rw [h.1 "z", if_pos (by decide), h.2.1 "z" (by decide)]
  · rw [h.2.2.2 "a", if_pos (by decide)]

/-- C5 (confirmed): whenever a merge is attempted (requested and more
than one entry) and the merge computation fails — in particular with
`No successful results to merge` when every entry failed — `_run`
answers with the unmerged per-source results paired with the
`merge_error` text, rather than raising or discarding the data. -/
theorem c5_merge_graceful_degradation (registry : List String)
    (behavior : String → String → Except String (List String × List (List Val)))
    (query : String) (connList : List String) (mt : String) (mk : Option String)
    (e : String) :
    (connList ≠ [] →
      (fanOut registry behavior query connList).length > 1 →
      mergeResultsFn (fanOut registry behavior query connList) mt mk = .error e →
      runMulti registry behavior query connList true mt mk
        = .mergeFailed e (fanOut registry behavior query connList))
      ∧ (∀ results : List (String × FanoutEntry),
          (∀ p ∈ results, p.2.success = false) →
          mergeResultsFn results mt mk = .error "No successful results to merge") := by
  constructor
  · intro h1 h2 h3
    cases connList with
    | nil => exact absurd rfl h1
    | cons a as =>
      simp only [runMulti, List.isEmpty_cons, Bool.false_eq_true, if_false]
      rw [if_pos ⟨trivial, h2⟩, h3]
  · intro results h
    have hfilter : results.filter (fun p => p.2.success) = [] := by
      rw [List.filter_eq_nil_iff]
      intro p hp
      simp [h p hp]
    simp only [mergeResultsFn, hfilter, List.isEmpty_nil, if_pos rfl]
    rfl

/-- C5 witness: with an empty registry both requested connections fail
with `Connection not found`, the merge fails with `No successful
results to merge`, and the caller receives the unmerged entries plus
that message. -/
theorem c5_merge_graceful_degradation_witness :
    runMulti [] behaviorOk "q" ["a", "b"] true "union" none
      = .mergeFailed "No successful results to merge"
          (fanOut [] behaviorOk "q" ["a", "b"]) := by
  have h := c5_merge_graceful_degradation [] behaviorOk "q" ["a", "b"] "union" none
    "No successful results to merge"
  refine h.1 (by decide) (by decide) ?_
  exact (h.2 (fanOut [] behaviorOk "q" ["a", "b"]) (by decide))

/-- C9 (confirmed): when merging is requested but only one connection
name was requested, the single-entry results dict is returned as-is:
no merged dataset and no `merge_error` (the `len(results) > 1` guard
skips the merge). -/
theorem c9_single_entry_skips_merge (registry : List String)
    (behavior : String → String → Except String (List String × List (List Val)))
    (query : String) (n : String) (mt : String) (mk : Option String) :
    runMulti registry behavior query [n] true mt mk
      = .plain [(n, runOne registry behavior query n)] := by
  simp [runMulti, fanOut, setKey]

/-! ### C8: the destructive-statement guard -/

/-- C8 (confirmed): a statement whose trimmed, uppercased text starts
with `DROP`, `DELETE`, `TRUNCATE`, `UPDATE`, `ALTER` or `CREATE` makes
`ExecuteQueryTool._run` return the refusal result without consulting
the engine at all (the outcome is the same for every engine
behaviour); any other statement passes the guard and is executed, its
outcome determined by the engine. -/
theorem c8_destructive_guard (q : String) (n : Nat) (e : Nat) :
    ((["DROP", "DELETE", "TRUNCATE", "UPDATE", "ALTER", "CREATE"].any
        (fun k => k.data.isPrefixOf (pyStrip (q.data.map Char.toUpper)))) = true →
      ∀ engineExec, executeQueryRun (some e) engineExec q n = .destructiveRefused)
      ∧ ((["DROP", "DELETE", "TRUNCATE", "UPDATE", "ALTER", "CREATE"].any
          (fun k => k.data.isPrefixOf (pyStrip (q.data.map Char.toUpper)))) = false →
        ∀ engineExec,
          (∀ err, engineExec e q = .error err →
            executeQueryRun (some e) engineExec q n = .failed err q)
          ∧ (∀ cols rows, engineExec e q = .ok (cols, rows) →
              executeQueryRun (some e) engineExec q n
                = .ok cols ((rows.take n).map (zipDict cols))
                    ((rows.take n).map (zipDict cols)).length
                    (decide (((rows.take n).map (zipDict cols)).length ≥ n)))) := by
  have hdef : isDestructiveQuery q
      = (["DROP", "DELETE", "TRUNCATE", "UPDATE", "ALTER", "CREATE"].any
          (fun k => k.data.isPrefixOf (pyStrip (q.data.map Char.toUpper)))) := rfl
  constructor
  · intro h engineExec
    simp [executeQueryRun, hdef, h]
  · intro h engineExec
    constructor
    · intro err herr
      simp [executeQueryRun, hdef, h, herr]
    · intro cols rows hok
      simp [executeQueryRun, hdef, h, hok]

/-- C8 witness: `DROP TABLE x` is refused regardless of the engine,
and `SELECT 1` is not blocked — it runs and reports the engine's
raised error. -/
theorem c8_destructive_guard_witness :
    executeQueryRun (some 0) engineExecErr "DROP TABLE x" 100 = .destructiveRefused
      ∧ executeQueryRun (some 0) engineExecErr "SELECT 1" 100
          = .failed "boom" "SELECT 1" := by
  constructor
  · exact (c8_destructive_guard "DROP TABLE x" 100 0).1 (by decide) engineExecErr
  · exact ((c8_destructive_guard "SELECT 1" 100 0).2 (by decide) engineExecErr).1 "boom" rfl

/-! ### C7: CONNECT_DB atomicity -/

/-- C7 counterexample: the claim says a failing `CONNECT_DB` leaves the
context completely unchanged.  Take a session that already connected
successfully (`ctxConnected`, agent holding a live engine) and dispatch
`CONNECT_DB` with the unsupported type `oracle`: the attempt fails with
`Unsupported database type` and never builds an engine, but the old
engine still answers the probe, so `agent.is_connected()` is true and
the dispatcher records the failed request's `db_type`/`db_name` in the
context. -/
theorem c7_failed_connect_mutates_context :
    execAction oracle0 agentLive ctxConnected .connectDb pOracleDb
        = .ok (.message "❌ Unsupported database type: oracle",
            { ctxConnected with dbType := some "oracle", dbName := some "new.db" },
            agentLive)
      ∧ ({ ctxConnected with dbType := some "oracle", dbName := some "new.db" } : MCPContext)
          ≠ ctxConnected := by
  exact ⟨rfl, by decide⟩

/-- C7 (amended): dispatching `CONNECT_DB` always yields the message as
a success-response payload, never a protocol-level error; the context
is updated (`connected := true` plus the requested `db_type`/`db_name`)
exactly when the agent reports a live connection after the attempt.
For a supported database type that gate equals the probe of the newly
created engine — so a successful connect records the request and a
failed one leaves the context unchanged; but for an unsupported or
missing type the agent (and its old engine) survive untouched, so a
previously connected session passes the gate and the failed request's
`db_type`/`db_name` are recorded anyway. -/
theorem c7_connect_db_atomicity (o : AgentOracle) (agent : Agent) (ctx : MCPContext)
    (p : ActionParams) :
    ∃ msg agent',
      execAction o agent ctx .connectDb p
          = .ok (.message msg,
              if isConnected o.probe agent' then
                { ctx with connected := true, dbType := p.dbType, dbName := p.dbName }
              else ctx,
              agent')
        ∧ (∀ u, connectUrl p = some u →
            isConnected o.probe agent' = o.probe (o.createEngine u))
        ∧ (connectUrl p = none → agent' = agent) := by
  refine ⟨(connectDbRun o.createEngine o.probe agent p).1,
    (connectDbRun o.createEngine o.probe agent p).2, rfl, ?_, ?_⟩
  · intro u hu
    unfold connectDbRun
    cases hd : p.dbType with
    | none =>
      unfold connectUrl at hu
      rw [hd] at hu
      simp at hu
    | some t =>
      dsimp only
      rw [hu]
      by_cases hp : o.probe (o.createEngine u)
      · simp [hp, isConnected]
      · simp [hp, isConnected]
  · intro hu
    unfold connectDbRun
    cases hd : p.dbType with
    | none => rfl
    | some t =>
      dsimp only
      rw [hu]

/-- C7 witness: applying the amended theorem at the counterexample
input shows the unsupported-type failure is still answered as a
success payload, with the unchanged agent. -/
theorem c7_connect_db_atomicity_witness :
    connectUrl pOracleDb = none
      ∧ isOkE (execAction oracle0 agentLive ctxConnected .connectDb pOracleDb) = true := by
  obtain ⟨msg, agent', heq, _, hnone⟩ :=
    c7_connect_db_atomicity oracle0 agentLive ctxConnected pOracleDb
  exact ⟨by decide, by rw [heq]; rfl⟩

/-! ### C6: session self-healing -/

/-- C6 counterexample: the claim says an unrecognized `session_id`
causes creation of a *new* session id.  Dispatching against an empty
server with the unrecognized id `ghost` (fresh uuid `fresh-uuid`
available) registers the session under `ghost` itself: no new id is
created — `fresh-uuid` is unused — and the response carries `ghost`. -/
theorem c6_unrecognized_id_reused :
    (getKey (executeAction oracle0 ⟨[], []⟩
        ⟨.getStatus, {}, some "ghost"⟩ "fresh-uuid").1.sessions "ghost").isSome = true
      ∧ getKey (executeAction oracle0 ⟨[], []⟩
          ⟨.getStatus, {}, some "ghost"⟩ "fresh-uuid").1.sessions "fresh-uuid" = none
      ∧ (executeAction oracle0 ⟨[], []⟩
          ⟨.getStatus, {}, some "ghost"⟩ "fresh-uuid").2.sessionId = some "ghost" := by
  refine ⟨rfl, rfl, rfl⟩

/-- C6 (amended): a request whose resolved serving id (the provided
`session_id`, or the fresh uuid when the id is absent or empty) is not
in the session store never errors for that reason: a new isolated
agent and a fresh zeroed context are registered under the serving id
and the request is dispatched against them.  When the dispatch
succeeds the response carries the serving id (on a dispatch exception
the error response echoes the request's original id). -/
theorem c6_session_self_healing (o : AgentOracle) (st : ServerState)
    (req : MCPRequest) (freshUuid : String)
    (hUnknown : getKey st.sessions (servingId req freshUuid) = none) :
    (getKey (executeAction o st req freshUuid).1.sessions (servingId req freshUuid) ≠ none)
      ∧ (∀ d c' a',
          execAction o freshAgent (freshContext (servingId req freshUuid))
              req.action req.params = .ok (d, c', a') →
          (executeAction o st req freshUuid).2
              = { success := true, data := some d, error := none,
                  sessionId := some (servingId req freshUuid), context := some c' }
            ∧ getKey (executeAction o st req freshUuid).1.sessions (servingId req freshUuid)
                = some c'
            ∧ getKey (executeAction o st req freshUuid).1.agents (servingId req freshUuid)
                = some a')
      ∧ (∀ e,
          execAction o freshAgent (freshContext (servingId req freshUuid))
              req.action req.params = .error e →
          (executeAction o st req freshUuid).2
              = { success := false, data := none, error := some e,
                  sessionId := req.sessionId, context := none }
            ∧ getKey (executeAction o st req freshUuid).1.sessions (servingId req freshUuid)
                = some (freshContext (servingId req freshUuid))
            ∧ getKey (executeAction o st req freshUuid).1.agents (servingId req freshUuid)
                = some freshAgent) := by
  have hrun : executeAction o st req freshUuid
      = (match execAction o freshAgent (freshContext (servingId req freshUuid))
            req.action req.params with
        | .ok (data, ctx', agent') =>
          ({ sessions := setKey (setKey st.sessions (servingId req freshUuid)
                (freshContext (servingId req freshUuid))) (servingId req freshUuid) ctx'
             agents := setKey (setKey st.agents (servingId req freshUuid) freshAgent)
                (servingId req freshUuid) agent' },
            { success := true, data := some data, error := none,
              sessionId := some (servingId req freshUuid), context := some ctx' })
        | .error e =>
          ({ sessions := setKey st.sessions (servingId req freshUuid)
                (freshContext (servingId req freshUuid))
             agents := setKey st.agents (servingId req freshUuid) freshAgent },
            { success := false, data := none, error := some e,
              sessionId := req.sessionId, context := none })) := by
    simp only [executeAction, hUnknown, Option.isSome_none, Bool.false_eq_true,
      if_false, getKey_setKey_self]
  refine ⟨?_, ?_, ?_⟩
  · rcases hE : execAction o freshAgent (freshContext (servingId req freshUuid))
        req.action req.params with e | v
    · rw [hrun, hE]
      simp [getKey_setKey_self]
    · obtain ⟨d, c', a'⟩ := v
      rw [hrun, hE]
      simp [getKey_setKey_self]
  · intro d c' a' hE
    rw [hrun, hE]
    exact ⟨rfl, getKey_setKey_self _ _ _, getKey_setKey_self _ _ _⟩
  · intro e hE
    rw [hrun, hE]
    exact ⟨rfl, getKey_setKey_self _ _ _, getKey_setKey_self _ _ _⟩

/-- C6 witness: the amended theorem applied to an empty server and the
unrecognized id `ghost`: the dispatch (a `GET_STATUS` under `oracle0`)
succeeds, so the response carries `ghost` and the session exists
afterwards. -/
theorem c6_session_self_healing_witness :
    (executeAction oracle0 ⟨[], []⟩ ⟨.getStatus, {}, some "ghost"⟩ "u1").2.sessionId
        = some "ghost"
      ∧ getKey (executeAction oracle0 ⟨[], []⟩
          ⟨.getStatus, {}, some "ghost"⟩ "u1").1.sessions "ghost"
        ≠ none := by
  have h := c6_session_self_healing oracle0 ⟨[], []⟩ ⟨.getStatus, {}, some "ghost"⟩ "u1"
    (by rfl)
  obtain ⟨hne, hok, _⟩ := h
  have hd := hok (.status false [] (freshContext "ghost")) (freshContext "ghost") freshAgent rfl
  refine ⟨?_, hne⟩
  rw [hd.1]
  rfl

/-! ### C10: `last_result_count` is never written -/

theorem execAction_preserves_lastResultCount (o : AgentOracle) (agent : Agent)
    (ctx : MCPContext) (action : MCPActionType) (params : ActionParams) :
    ∀ d c' a', execAction o agent ctx action params = .ok (d, c', a') →
      c'.lastResultCount = ctx.lastResultCount := by
  intro d c' a' h
  cases action with
  | connectDb =>
    simp only [execAction, Except.ok.injEq, Prod.mk.injEq] at h
    obtain ⟨-, hc, -⟩ := h
    rw [← hc]
    split_ifs <;> rfl
  | getSchema =>
    cases hs : o.getSchema agent (params.includeSampleData.getD false) with
    | error e => simp [execAction, hs] at h
    | ok s =>
      simp only [execAction, hs, Except.ok.injEq, Prod.mk.injEq] at h
      obtain ⟨-, hc, -⟩ := h
      rw [← hc]
  | generateQuery =>
    cases hs : o.getSchema agent false with
    | error e => simp [execAction, hs] at h
    | ok s =>
      cases hg : o.generateQuery agent params.prompt (params.chatHistory.getD "") with
      | error e => simp [execAction, hs, hg] at h
      | ok sql =>
        simp only [execAction, hs, hg, Except.ok.injEq, Prod.mk.injEq] at h
        obtain ⟨-, hc, -⟩ := h
        rw [← hc]
  | executeQuery =>
    cases he : o.executeFlow agent params.prompt (params.debug.getD false) with
    | error e => simp [execAction, he] at h
    | ok sq =>
      simp only [execAction, he, Except.ok.injEq, Prod.mk.injEq] at h
      obtain ⟨-, hc, -⟩ := h
      rw [← hc]
      cases sq with
      | none => rfl
      | some s =>
        by_cases hempty : s = "" <;> simp [hempty]
  | analyzeResults =>
    cases ha : o.analyze agent params.queryResultJson params.prompt with
    | error e => simp [execAction, ha] at h
    | ok a =>
      simp only [execAction, ha, Except.ok.injEq, Prod.mk.injEq] at h
      obtain ⟨-, hc, -⟩ := h
      rw [← hc]
  | getStatus =>
    simp only [execAction, Except.ok.injEq, Prod.mk.injEq] at h
    obtain ⟨-, hc, -⟩ := h
    rw [← hc]
  | chat =>
    cases hch : o.chatFn agent params.message (params.debug.getD false) with
    | error e => simp [execAction, hch] at h
    | ok r =>
      simp only [execAction, hch, Except.ok.injEq, Prod.mk.injEq] at h
      obtain ⟨-, hc, -⟩ := h
      rw [← hc]

theorem executeAction_preserves_session_inv (o : AgentOracle) (st : ServerState)
    (req : MCPRequest) (fresh : String)
    (hst : ∀ s c, getKey st.sessions s = some c → c.lastResultCount = none) :
    ∀ s c, getKey (executeAction o st req fresh).1.sessions s = some c →
      c.lastResultCount = none := by
  intro s c hc
  simp only [executeAction] at hc
  by_cases hknown : (getKey st.sessions (servingId req fresh)).isSome = true
  · rw [if_pos hknown] at hc
    rcases hS : getKey st.sessions (servingId req fresh) with - | ctx₀
    · rw [hS] at hknown; simp at hknown
    · rw [hS] at hc
      rcases hA : getKey st.agents (servingId req fresh) with - | agent₀
      · rw [hA] at hc
        exact hst _ _ hc
      · rw [hA] at hc
        dsimp only at hc
        rcases hE : execAction o agent₀ ctx₀ req.action req.params with e | v
        · rw [hE] at hc
          exact hst _ _ hc
        · obtain ⟨d, c', a'⟩ := v
          rw [hE] at hc
          simp only at hc
          rw [getKey_setKey] at hc
          by_cases hss : s = servingId req fresh
          · rw [if_pos hss] at hc
            have hcc : c = c' := by injection hc with hh; exact hh.symm
            rw [hcc,
              execAction_preserves_lastResultCount o agent₀ ctx₀ req.action req.params
                d c' a' hE]
            exact hst _ _ hS
          · rw [if_neg hss] at hc
            exact hst _ _ hc
  · rw [if_neg hknown] at hc
    simp only [getKey_setKey_self] at hc
    rcases hE : execAction o freshAgent (freshContext (servingId req fresh))
        req.action req.params with e | v
    · rw [hE] at hc
      simp only at hc
      rw [getKey_setKey] at hc
      by_cases hss : s = servingId req fresh
      · rw [if_pos hss] at hc
        have hcc : c = freshContext (servingId req fresh) := by
          injection hc with hh; exact hh.symm
        rw [hcc]
        rfl
      · rw [if_neg hss] at hc
        exact hst _ _ hc
    · obtain ⟨d, c', a'⟩ := v
      rw [hE] at hc
      simp only at hc
      rw [getKey_setKey] at hc
      by_cases hss : s = servingId req fresh
      · rw [if_pos hss] at hc
        have hcc : c = c' := by injection hc with hh; exact hh.symm
        rw [hcc,
          execAction_preserves_lastResultCount o freshAgent
            (freshContext (servingId req fresh)) req.action req.params d c' a' hE]
        rfl
      · rw [if_neg hss] at hc
        rw [getKey_setKey] at hc
        by_cases hss' : s = servingId req fresh
        · exact absurd hss' hss
        · rw [if_neg hss'] at hc
          exact hst _ _ hc

/-- C10 (confirmed): no branch of the dispatcher ever writes
`last_result_count`, so for every session reachable from an empty
server by any sequence of dispatched requests, its context's
`last_result_count` is still the creation-time `None`. -/
theorem c10_last_result_count_never_written (o : AgentOracle)
    (reqs : List (MCPRequest × String)) (sid : String) (ctx : MCPContext)
    (h : getKey (serverFold o ⟨[], []⟩ reqs).sessions sid = some ctx) :
    ctx.lastResultCount = none := by
  have main : ∀ (rs : List (MCPRequest × String)) (st : ServerState),
      (∀ s c, getKey st.sessions s = some c → c.lastResultCount = none) →
      ∀ s c, getKey (serverFold o st rs).sessions s = some c →
        c.lastResultCount = none := by
    intro rs
    induction rs with
    | nil => intro st hst; exact hst
    | cons rq rest ih =>
      intro st hst
      exact ih _ (executeAction_preserves_session_inv o st rq.1 rq.2 hst)
  refine main reqs ⟨[], []⟩ ?_ sid ctx h
  intro s c hc
  simp [getKey] at hc

/-- C10 witness: after a server handles one `GET_STATUS` request with
no session id, the created session's context still has
`last_result_count = None`. -/
theorem c10_last_result_count_witness : (freshContext "u").lastResultCount = none :=
  c10_last_result_count_never_written oracle0 [(⟨.getStatus, {}, none⟩, "u")] "u"
    (freshContext "u") rfl

/-! ### C3: the join-mode key precondition -/

theorem buildDfs_ok (k : String) (l : List (String × FanoutEntry))
    (h : ∀ p ∈ l, (p.2.data.getD []) = []
      ∨ k ∈ (pdDataFrame (p.2.data.getD [])).columns) :
    buildDfs k l
      = .ok ((l.filter (fun p => !(p.2.data.getD []).isEmpty)).map
          (fun p => (p.1, renameDF k p.1 (pdDataFrame (p.2.data.getD []))))) := by
  induction l with
  | nil => rfl
  | cons p rest ih =>
    have hrest := ih (fun q hq => h q (List.mem_cons_of_mem _ hq))
    by_cases hemp : (p.2.data.getD []).isEmpty
    · simp [buildDfs, hemp, hrest]
    · have hne : (p.2.data.getD []) ≠ [] := by
        intro hh; rw [hh] at hemp; exact hemp rfl
      have hk : k ∈ (pdDataFrame (p.2.data.getD [])).columns :=
        (h p (List.mem_cons_self _ _)).resolve_left hne
      simp [buildDfs, hemp, hk, hrest]

theorem buildDfs_first_offender (k : String) (pre : List (String × FanoutEntry))
    (n : String) (r : FanoutEntry) (post : List (String × FanoutEntry))
    (hpre : ∀ p ∈ pre, (p.2.data.getD []) = []
      ∨ k ∈ (pdDataFrame (p.2.data.getD [])).columns)
    (hne : (r.data.getD []) ≠ [])
    (hk : k ∉ (pdDataFrame (r.data.getD [])).columns) :
    buildDfs k (pre ++ (n, r) :: post)
      = .error ("Merge key '" ++ k ++ "' not found in " ++ n) := by
  induction pre with
  | nil =>
    have hemp : (r.data.getD []).isEmpty = false := by
      cases hd : r.data.getD [] with
      | nil => exact absurd hd hne
      | cons a as => rfl
    simp [buildDfs, hemp, hk]
  | cons q qre ih =>
    have hq := hpre q (List.mem_cons_self _ _)
    have hih := ih (fun p hp => hpre p (List.mem_cons_of_mem _ hp))
    by_cases hemp : (q.2.data.getD []).isEmpty
    · simp [buildDfs, hemp, hih]
    · have hneq : (q.2.data.getD []) ≠ [] := by
        intro hh; rw [hh] at hemp; exact hemp rfl
      have hkq : k ∈ (pdDataFrame (q.2.data.getD [])).columns := hq.resolve_left hneq
      simp [buildDfs, hemp, hkq, hih]

theorem mergeResultsFn_join_reduces (results : List (String × FanoutEntry))
    (k : String) (hk : k ≠ "")
    (hs : (results.filter (fun p => p.2.success)).isEmpty = false) :
    mergeResultsFn results "join" (some k)
      = joinMerge (results.filter (fun p => p.2.success)) k := by
  simp [mergeResultsFn, hs, hk]

/-- C3 counterexample: the claim requires the join merge to fail
whenever the merge key is absent from the columns of *any* remaining
successful entry.  With source `A` carrying `id` and source `B`
successful but with zero rows (declared columns `[x]`, lacking `id`),
the merge succeeds: empty-data entries are skipped before the key
check. -/
theorem c3_empty_source_skips_key_check :
    isOkE (mergeResultsFn c3ex "join" (some "id")) = true
      ∧ (c3ex.map (fun p => (p.1, p.2.success, p.2.columns)))
          = [("A", true, some ["id"]), ("B", true, some ["x"])]
      ∧ "id" ∉ (["x"] : List String) := by
  exact ⟨rfl, rfl, by decide⟩

/-! ### C2 and the shared join-merge machinery (the C3 claim theorem,
whose success clause rides on the same lemmas, follows at the end) -/

theorem getKey_map_pair (cols : List String) (g : String → Val) (x : String) :
    getKey (cols.map (fun c => (c, g c))) x = if x ∈ cols then some (g x) else none := by
  induction cols with
  | nil => simp [getKey]
  | cons c rest ih =>
    by_cases hx : c = x
    · simp [getKey, hx]
    · simp [getKey, hx, ih, Ne.symm hx]

theorem getKey_append_left {l t : Row} {x : String} (h : x ∈ l.map (·.1)) :
    getKey (l ++ t) x = getKey l x := by
  induction l with
  | nil => simp at h
  | cons p rest ih =>
    by_cases hp : p.1 = x
    · simp [getKey, hp]
    · rcases List.mem_map.mp h with ⟨q, hq, hqx⟩
      rcases List.mem_cons.mp hq with hq | hq
      · exact absurd (hq ▸ hqx) hp
      · simp [getKey, hp]
        exact ih (hqx ▸ List.mem_map_of_mem _ hq)

theorem getKey_append_right {l t : Row} {x : String} (h : x ∉ l.map (·.1)) :
    getKey (l ++ t) x = getKey t x := by
  induction l with
  | nil => simp
  | cons p rest ih =>
    have hp : p.1 ≠ x := by
      intro hh
      exact h (List.mem_map.mpr ⟨p, List.mem_cons_self _ _, hh⟩)
    simp only [List.cons_append, getKey, if_neg hp]
    exact ih (fun hh => h (by
      rcases List.mem_map.mp hh with ⟨q, hq, hqx⟩
      exact List.mem_map.mpr ⟨q, List.mem_cons_of_mem _ hq, hqx⟩))

theorem filter_fst_map (r : Row) (k : String) :
    (r.filter (fun p => p.1 ≠ k)).map (·.1) = (r.map (·.1)).filter (fun c => c ≠ k) := by
  induction r with
  | nil => rfl
  | cons p rest ih =>
    simp only [ne_eq, decide_not] at ih ⊢
    by_cases hp : p.1 = k
    · simp [hp, ih]
    · simp [hp, ih]

theorem getKey_isSome_of_mem_keys {r : Row} {x : String} (h : x ∈ r.map (·.1)) :
    ∃ v, getKey r x = some v := by
  induction r with
  | nil => simp at h
  | cons p rest ih =>
    by_cases hp : p.1 = x
    · exact ⟨p.2, by simp [getKey, hp]⟩
    · rcases List.mem_map.mp h with ⟨q, hq, hqx⟩
      rcases List.mem_cons.mp hq with hq | hq
      · exact absurd (hq ▸ hqx) hp
      · simpa [getKey, hp] using ih (hqx ▸ List.mem_map_of_mem _ hq)

theorem mem_chainCols (k : String) (P : List DF) (d : DF) (c : String)
    (hd : d ∈ P) (hc : c ∈ d.columns) (hck : c ≠ k) : c ∈ chainCols k P := by
  cases P with
  | nil => simp at hd
  | cons d₀ rest =>
    simp only [chainCols]
    rcases List.mem_cons.mp hd with hd | hd
    · subst hd
      exact List.mem_append_left _ hc
    · exact List.mem_append_right _
        (List.mem_flatMap.mpr ⟨d, hd, List.mem_filter.mpr ⟨hc, by simp [hck]⟩⟩)

theorem chainCols_append_singleton (k : String) (P : List DF) (d : DF) (h : P ≠ []) :
    chainCols k (P ++ [d]) = chainCols k P ++ d.columns.filter (fun c => c ≠ k) := by
  cases P with
  | nil => exact absurd rfl h
  | cons d₀ rest =>
    simp [chainCols, List.flatMap_append, List.append_assoc]

theorem pdDataFrame_rowsKeys (data : List Row) :
    ∀ r ∈ (pdDataFrame data).data, r.map (·.1) = (pdDataFrame data).columns := by
  intro r hr
  rcases List.mem_map.mp hr with ⟨row, hrow, hre⟩
  rw [← hre, List.map_map]
  have hcomp : ((fun x : String × Val => x.1)
      ∘ fun c => (c, (getKey row c).getD Val.null)) = id := rfl
  rw [hcomp, List.map_id]
  rfl

theorem pdDataFrame_keys (data : List Row) (k : String)
    (hk : k ∈ (pdDataFrame data).columns) :
    (pdDataFrame data).data.map (keyOf k) = data.map (keyOf k) := by
  have hdata : (pdDataFrame data).data
      = data.map (fun r => (pdDataFrame data).columns.map
          (fun c => (c, (getKey r c).getD Val.null))) := rfl
  rw [hdata, List.map_map]
  refine List.map_congr_left ?_
  intro row _
  show keyOf k ((pdDataFrame data).columns.map
    (fun c => (c, (getKey row c).getD Val.null))) = keyOf k row
  unfold keyOf
  rw [getKey_map_pair, if_pos hk]
  rfl

theorem pdDataFrame_cols_nodup (data : List Row)
    (h : ∀ r ∈ data, (r.map (·.1)).Nodup) :
    (pdDataFrame data).columns.Nodup := by
  have main : ∀ (l : List Row) (acc : List String), acc.Nodup →
      (∀ r ∈ l, (r.map (·.1)).Nodup) →
      (l.foldl (fun acc r =>
        acc ++ (r.map (·.1)).filter (fun c => ¬ acc.contains c)) acc).Nodup := by
    intro l
    induction l with
    | nil => intro acc ha _; exact ha
    | cons r rest ih =>
      intro acc ha hall
      refine ih _ ?_ (fun q hq => hall q (List.mem_cons_of_mem _ hq))
      refine List.Nodup.append ha ((hall r (List.mem_cons_self _ _)).filter _) ?_
      intro a haa haf
      rw [List.mem_filter] at haf
      simp only [decide_eq_true_eq] at haf
      exact haf.2 (by simpa using haa)
  exact main data [] (by simp) h

theorem renameDF_rowsKeys (k n : String) (df : DF)
    (h : ∀ r ∈ df.data, r.map (·.1) = df.columns) :
    ∀ r ∈ (renameDF k n df).data, r.map (·.1) = (renameDF k n df).columns := by
  intro r hr
  rcases List.mem_map.mp hr with ⟨row, hrow, hre⟩
  rw [← hre]
  show (row.map (fun q => (if q.1 = k then q.1 else q.1 ++ "_" ++ n, q.2))).map (·.1)
    = df.columns.map (fun c => if c = k then c else c ++ "_" ++ n)
  rw [List.map_map, ← h row hrow, List.map_map]
  rfl

theorem renameDF_keyOf (k n : String) (df : DF)
    (hrows : ∀ r ∈ df.data, r.map (·.1) = df.columns)
    (hnk : ∀ c ∈ df.columns, c ≠ k → c ++ "_" ++ n ≠ k) :
    (renameDF k n df).data.map (keyOf k) = df.data.map (keyOf k) := by
  show (df.data.map (fun r => r.map
      (fun q => (if q.1 = k then q.1 else q.1 ++ "_" ++ n, q.2)))).map (keyOf k)
    = df.data.map (keyOf k)
  rw [List.map_map]
  refine List.map_congr_left ?_
  intro row hrow
  have hkeys : ∀ q ∈ row, q.1 ∈ df.columns := by
    intro q hq
    rw [← hrows row hrow]
    exact List.mem_map_of_mem _ hq
  show keyOf k (row.map (fun q => (if q.1 = k then q.1 else q.1 ++ "_" ++ n, q.2)))
    = keyOf k row
  clear hrow
  induction row with
  | nil => rfl
  | cons q rest ih =>
    have hq1 := hkeys q (List.mem_cons_self _ _)
    by_cases hq : q.1 = k
    · simp [keyOf, getKey, hq]
    · have hrq : q.1 ++ "_" ++ n ≠ k := hnk q.1 hq1 hq
      simp only [keyOf, getKey, List.map_cons, if_neg hq, if_neg hrq]
      exact ih (fun p hp => hkeys p (List.mem_cons_of_mem _ hp))

theorem renameDF_keyMem (k n : String) (df : DF) (hk : k ∈ df.columns) :
    k ∈ (renameDF k n df).columns := by
  show k ∈ df.columns.map (fun c => if c = k then c else c ++ "_" ++ n)
  exact List.mem_map.mpr ⟨k, hk, by simp⟩

theorem valMatch_iff (v w : Val) : valMatch v w = true ↔ v = w := by
  simp [valMatch]

theorem objectDtype_eq_true_iff (vals : List Val) :
    objectDtype vals = true
      ↔ (∃ v ∈ vals, isStr v = true) ∨ (∀ v ∈ vals, v = Val.null) := by
  simp [objectDtype, List.any_eq_true, List.all_eq_true]

theorem flatMap_map_eq {α β γ : Type} (l : List α) (f : α → List β) (g : β → γ) :
    (l.flatMap f).map g = l.flatMap (fun a => (f a).map g) := by
  induction l with
  | nil => rfl
  | cons a rest ih => simp [List.flatMap_cons, List.map_append, ih]

theorem flatMap_eq_map_of_forall {α β : Type} (l : List α) (f : α → List β)
    (g : α → β) (h : ∀ a ∈ l, f a = [g a]) : l.flatMap f = l.map g := by
  induction l with
  | nil => rfl
  | cons a rest ih =>
    rw [List.flatMap_cons, h a (List.mem_cons_self _ _),
      ih (fun b hb => h b (List.mem_cons_of_mem _ hb))]
    rfl

theorem keyOf_append_left {l t : Row} {k : String} (h : k ∈ l.map (·.1)) :
    keyOf k (l ++ t) = keyOf k l := by
  unfold keyOf
  rw [getKey_append_left h]

theorem keys_map_pair (cols : List String) (g : String → Val) :
    (cols.map (fun c => (c, g c))).map (·.1) = cols := by
  rw [List.map_map]
  have hcomp : ((fun x : String × Val => x.1) ∘ fun c => (c, g c)) = id := rfl
  rw [hcomp, List.map_id]

theorem ite_pair_eq (k : String) (x y : Val) :
    (fun c => if c = k then (c, x) else (c, y))
      = (fun c => (c, if c = k then x else y)) := by
  funext c
  by_cases h : c = k <;> simp [h]

theorem filter_match_single {k : String} (D : List Row)
    (hnodup : (D.map (keyOf k)).Nodup) (v : Val) :
    D.filter (fun r => valMatch v (keyOf k r)) = []
      ∨ ∃ r₀, D.filter (fun r => valMatch v (keyOf k r)) = [r₀]
          ∧ keyOf k r₀ = v ∧ r₀ ∈ D := by
  induction D with
  | nil => exact Or.inl rfl
  | cons r rest ih =>
    rw [List.map_cons, List.nodup_cons] at hnodup
    by_cases hm : valMatch v (keyOf k r) = true
    · right
      have hv := (valMatch_iff _ _).mp hm
      refine ⟨r, ?_, hv.symm, List.mem_cons_self _ _⟩
      rw [List.filter_cons, if_pos hm]
      have hrest : rest.filter (fun r' => valMatch v (keyOf k r')) = [] := by
        rw [List.filter_eq_nil_iff]
        intro r' hr' hmr'
        have hv' := (valMatch_iff _ _).mp hmr'
        exact hnodup.1 (by
          rw [← hv, hv']
          exact List.mem_map_of_mem _ hr')
      rw [hrest]
    · rw [List.filter_cons, if_neg hm]
      rcases ih hnodup.2 with h | ⟨r₀, he, hv, hmem⟩
      · exact Or.inl h
      · exact Or.inr ⟨r₀, he, hv, List.mem_cons_of_mem _ hmem⟩

theorem mergeOuterRaw_inv (k sfx : String) (P : List DF) (M d : DF)
    (hM : ChainInv k P M) (hd : dfOK k d) (hP : P ≠ [])
    (hfresh : ∀ c ∈ d.columns, c ≠ k → c ∉ M.columns) :
    ChainInv k (P ++ [d]) (mergeOuterRaw k sfx M d) := by
  obtain ⟨hdrows, hdnodup, hdkey, -⟩ := hd
  have hrn : ∀ c ∈ d.columns, mergeRn k sfx M c = c := by
    intro c hc
    unfold mergeRn
    by_cases hck : c = k
    · rw [if_neg]
      simp [hck]
    · rw [if_neg]
      rintro ⟨-, hcontains⟩
      exact hfresh c hc hck (by simpa using hcontains)
  have hrcols : d.columns.map (mergeRn k sfx M) = d.columns := by
    rw [List.map_congr_left (g := id) (fun c hc => hrn c hc), List.map_id]
  have hrrow : ∀ r ∈ d.data, r.map (fun p => (mergeRn k sfx M p.1, p.2)) = r := by
    intro r hr
    have hpt : ∀ p ∈ r, (mergeRn k sfx M p.1, p.2) = p := by
      intro p hp
      have hp1 : p.1 ∈ d.columns := by
        rw [← hdrows r hr]
        exact List.mem_map_of_mem _ hp
      rw [hrn p.1 hp1]
    rw [List.map_congr_left (g := id) hpt, List.map_id]
  have hcols : (mergeOuterRaw k sfx M d).columns
      = M.columns ++ d.columns.filter (fun c => c ≠ k) := by
    show M.columns ++ (d.columns.map (mergeRn k sfx M)).filter (fun c => c ≠ k) = _
    rw [hrcols]
  have hdata : (mergeOuterRaw k sfx M d).data
      = (M.data.flatMap fun l =>
          if (d.data.filter (fun r => valMatch (keyOf k l) (keyOf k r))).isEmpty then
            [l ++ ((d.columns.map (mergeRn k sfx M)).filter (fun c => c ≠ k)).map
              (fun c => (c, Val.null))]
          else
            (d.data.filter (fun r => valMatch (keyOf k l) (keyOf k r))).map
              (fun r => l ++ (r.map (fun p => (mergeRn k sfx M p.1, p.2))).filter
                (fun p => p.1 ≠ k)))
        ++ (d.data.filter (fun r => ¬ M.data.any
              (fun l => valMatch (keyOf k l) (keyOf k r)))).map
            (fun r => (M.columns.map (fun c => if c = k then (c, keyOf k r)
                else (c, Val.null)))
              ++ (r.map (fun p => (mergeRn k sfx M p.1, p.2))).filter
                (fun p => p.1 ≠ k)) := rfl
  have hlkeys : ∀ l ∈ M.data, l.map (·.1) = M.columns := hM.rowsKeys
  have hlk : ∀ l ∈ M.data, k ∈ l.map (·.1) := by
    intro l hl
    rw [hlkeys l hl]
    exact hM.keyMem
  -- the right-hand rows and their keys
  have hrightKeys : ∀ r, keyOf k ((M.columns.map (fun c => if c = k then (c, keyOf k r)
      else (c, Val.null)))
        ++ (r.map (fun p => (mergeRn k sfx M p.1, p.2))).filter (fun p => p.1 ≠ k))
      = keyOf k r := by
    intro r
    rw [ite_pair_eq]
    unfold keyOf
    rw [getKey_append_left (by rw [keys_map_pair]; exact hM.keyMem), getKey_map_pair,
      if_pos hM.keyMem]
    simp
  -- every left-hand block contributes exactly one row, with the left key
  have hleftBlocks : ∀ l ∈ M.data,
      (if (d.data.filter (fun r => valMatch (keyOf k l) (keyOf k r))).isEmpty then
        [l ++ ((d.columns.map (mergeRn k sfx M)).filter (fun c => c ≠ k)).map
          (fun c => (c, Val.null))]
      else
        (d.data.filter (fun r => valMatch (keyOf k l) (keyOf k r))).map
          (fun r => l ++ (r.map (fun p => (mergeRn k sfx M p.1, p.2))).filter
            (fun p => p.1 ≠ k)))
      = [l ++ ((d.columns.map (mergeRn k sfx M)).filter (fun c => c ≠ k)).map
            (fun c => (c, Val.null))]
        ∨ ∃ r₀ ∈ d.data, keyOf k r₀ = keyOf k l
            ∧ (if (d.data.filter (fun r => valMatch (keyOf k l) (keyOf k r))).isEmpty then
                [l ++ ((d.columns.map (mergeRn k sfx M)).filter (fun c => c ≠ k)).map
                  (fun c => (c, Val.null))]
              else
                (d.data.filter (fun r => valMatch (keyOf k l) (keyOf k r))).map
                  (fun r => l ++ (r.map (fun p => (mergeRn k sfx M p.1, p.2))).filter
                    (fun p => p.1 ≠ k)))
              = [l ++ r₀.filter (fun p => p.1 ≠ k)] := by
    intro l hl
    rcases filter_match_single d.data hdnodup (keyOf k l) with hnil | ⟨r₀, he, hv, hmem⟩
    · left
      rw [if_pos (by rw [hnil]; rfl)]
    · right
      refine ⟨r₀, hmem, hv, ?_⟩
      rw [if_neg (by rw [he]; simp), he, List.map_cons, List.map_nil, hrrow r₀ hmem]
  have hkeysEq : (mergeOuterRaw k sfx M d).data.map (keyOf k)
      = M.data.map (keyOf k)
        ++ (d.data.filter (fun r => ¬ M.data.any
            (fun l => valMatch (keyOf k l) (keyOf k r)))).map (keyOf k) := by
    rw [hdata, List.map_append]
    congr 1
    · rw [flatMap_map_eq]
      refine flatMap_eq_map_of_forall _ _ _ ?_
      intro l hl
      rcases hleftBlocks l hl with hb | ⟨r₀, hr₀, hv, hb⟩
      · rw [hb, List.map_cons, List.map_nil, keyOf_append_left (hlk l hl)]
      · rw [hb, List.map_cons, List.map_nil, keyOf_append_left (hlk l hl)]
    · rw [List.map_map]
      refine List.map_congr_left ?_
      intro r _
      exact hrightKeys r
  refine
    { colsEq := ?_
      rowsKeys := ?_
      keyMem := ?_
      keysNodup := ?_
      keysUnion := ?_
      nullFill := ?_ }
  · rw [hcols, chainCols_append_singleton k P d hP, hM.colsEq]
  · intro row hrow
    rw [hdata] at hrow
    rcases List.mem_append.mp hrow with hL | hR
    · rcases List.mem_flatMap.mp hL with ⟨l, hl, hin⟩
      rcases hleftBlocks l hl with hb | ⟨r₀, hr₀, hv, hb⟩
      · rw [hb, List.mem_singleton] at hin
        subst hin
        rw [List.map_append, hlkeys l hl, keys_map_pair, hcols, hrcols]
      · rw [hb, List.mem_singleton] at hin
        subst hin
        rw [List.map_append, hlkeys l hl, filter_fst_map, hdrows r₀ hr₀, hcols]
    · rcases List.mem_map.mp hR with ⟨r, hr, hre⟩
      have hrd : r ∈ d.data := (List.mem_filter.mp hr).1
      rw [← hre, List.map_append, ite_pair_eq, keys_map_pair, hrrow r hrd,
        filter_fst_map, hdrows r hrd, hcols]
  · rw [hcols]
    exact List.mem_append_left _ hM.keyMem
  · rw [hkeysEq]
    refine List.Nodup.append hM.keysNodup
      (List.Sublist.nodup (List.Sublist.map _ (List.filter_sublist _)) hdnodup) ?_
    intro v hvL hvR
    rcases List.mem_map.mp hvR with ⟨r, hrf, hre⟩
    rw [List.mem_filter] at hrf
    obtain ⟨hrd, hunm⟩ := hrf
    rcases List.mem_map.mp hvL with ⟨l, hl, hle⟩
    have hmatch : valMatch (keyOf k l) (keyOf k r) = true := by
      rw [valMatch_iff, hle, ← hre]
    have hany : M.data.any (fun l => valMatch (keyOf k l) (keyOf k r)) = true :=
      List.any_eq_true.mpr ⟨l, hl, hmatch⟩
    simp only [decide_eq_true_eq] at hunm
    exact hunm hany
  · intro v
    rw [hkeysEq, List.mem_append]
    constructor
    · rintro (h | h)
      · rcases (hM.keysUnion v).mp h with ⟨d', hd', hv⟩
        exact ⟨d', List.mem_append_left _ hd', hv⟩
      · rcases List.mem_map.mp h with ⟨r, hr, hre⟩
        exact ⟨d, List.mem_append_right _ (List.mem_singleton.mpr rfl),
          by rw [← hre]; exact List.mem_map_of_mem _ (List.mem_filter.mp hr).1⟩
    · rintro ⟨d', hd', hv⟩
      rcases List.mem_append.mp hd' with hd' | hd'
      · exact Or.inl ((hM.keysUnion v).mpr ⟨d', hd', hv⟩)
      · rw [List.mem_singleton] at hd'
        subst hd'
        rcases List.mem_map.mp hv with ⟨r, hrd, hre⟩
        by_cases hany : M.data.any (fun l => valMatch (keyOf k l) (keyOf k r)) = true
        · left
          rcases List.any_eq_true.mp hany with ⟨l, hl, hm⟩
          have hveq := (valMatch_iff _ _).mp hm
          rw [← hre, ← hveq]
          exact List.mem_map_of_mem _ hl
        · right
          rw [← hre]
          exact List.mem_map_of_mem _ (List.mem_filter.mpr ⟨hrd, by simpa using hany⟩)
  · intro row hrow d' hd' hkey c hc hck
    rw [hdata] at hrow
    rcases List.mem_append.mp hrow with hL | hR
    · rcases List.mem_flatMap.mp hL with ⟨l, hl, hin⟩
      rcases hleftBlocks l hl with hb | ⟨r₀, hr₀, hv, hb⟩
      · rw [hb, List.mem_singleton] at hin
        subst hin
        rw [keyOf_append_left (hlk l hl)] at hkey
        rcases List.mem_append.mp hd' with hdP | hdd
        · have hcM : c ∈ M.columns := by
            rw [hM.colsEq]
            exact mem_chainCols k P d' c hdP hc hck
          have hcl : c ∈ l.map (·.1) := by
            rw [hlkeys l hl]
            exact hcM
          rw [getKey_append_left hcl]
          exact hM.nullFill l hl d' hdP hkey c hc hck
        · rw [List.mem_singleton] at hdd
          subst hdd
          have hcl : c ∉ l.map (·.1) := by
            rw [hlkeys l hl]
            exact hfresh c hc hck
          rw [getKey_append_right hcl, getKey_map_pair, if_pos]
          rw [hrcols]
          exact List.mem_filter.mpr ⟨hc, by simp [hck]⟩
      · rw [hb, List.mem_singleton] at hin
        subst hin
        rw [keyOf_append_left (hlk l hl)] at hkey
        rcases List.mem_append.mp hd' with hdP | hdd
        · have hcM : c ∈ M.columns := by
            rw [hM.colsEq]
            exact mem_chainCols k P d' c hdP hc hck
          have hcl : c ∈ l.map (·.1) := by
            rw [hlkeys l hl]
            exact hcM
          rw [getKey_append_left hcl]
          exact hM.nullFill l hl d' hdP hkey c hc hck
        · rw [List.mem_singleton] at hdd
          subst hdd
          exact absurd (by rw [← hv]; exact List.mem_map_of_mem _ hr₀) hkey
    · rcases List.mem_map.mp hR with ⟨r, hr, hre⟩
      have hrd : r ∈ d.data := (List.mem_filter.mp hr).1
      rcases List.mem_append.mp hd' with hdP | hdd
      · have hcM : c ∈ M.columns := by
          rw [hM.colsEq]
          exact mem_chainCols k P d' c hdP hc hck
        rw [← hre, ite_pair_eq, getKey_append_left (by rw [keys_map_pair]; exact hcM),
          getKey_map_pair, if_pos hcM, if_neg hck]
      · rw [List.mem_singleton] at hdd
        subst hdd
        rw [← hre, hrightKeys r] at hkey
        exact absurd (List.mem_map_of_mem _ hrd) hkey

theorem chainInv_perm (k : String) (P : List DF) (M M' : DF)
    (hcols : M'.columns = M.columns) (hperm : M'.data.Perm M.data)
    (hM : ChainInv k P M) : ChainInv k P M' := by
  refine
    { colsEq := by rw [hcols, hM.colsEq]
      rowsKeys := ?_
      keyMem := by rw [hcols]; exact hM.keyMem
      keysNodup := ((hperm.map (keyOf k)).nodup_iff).mpr hM.keysNodup
      keysUnion := ?_
      nullFill := ?_ }
  · intro r hr
    rw [hcols]
    exact hM.rowsKeys r (hperm.mem_iff.mp hr)
  · intro v
    rw [(hperm.map (keyOf k)).mem_iff]
    exact hM.keysUnion v
  · intro r hr
    exact hM.nullFill r (hperm.mem_iff.mp hr)

theorem mergeOuterJoin_inv (k sfx : String) (P : List DF) (M d : DF)
    (hM : ChainInv k P M) (hd : dfOK k d) (hP : P ≠ [])
    (hfresh : ∀ c ∈ d.columns, c ≠ k → c ∉ M.columns) :
    ChainInv k (P ++ [d]) (mergeOuterJoin k sfx M d) :=
  chainInv_perm k (P ++ [d]) (mergeOuterRaw k sfx M d) (mergeOuterJoin k sfx M d)
    rfl (List.perm_insertionSort _ _)
    (mergeOuterRaw_inv k sfx P M d hM hd hP hfresh)

theorem chainInv_single (k : String) (d : DF) (hd : dfOK k d) : ChainInv k [d] d := by
  obtain ⟨hrows, hnodup, hkey, -⟩ := hd
  refine
    { colsEq := by simp [chainCols]
      rowsKeys := hrows
      keyMem := hkey
      keysNodup := hnodup
      keysUnion := ?_
      nullFill := ?_ }
  · intro v
    constructor
    · intro h
      exact ⟨d, List.mem_singleton.mpr rfl, h⟩
    · rintro ⟨d', hd', hv⟩
      rw [List.mem_singleton] at hd'
      subst hd'
      exact hv
  · intro r hr d' hd' hkeyn c hc hck
    rw [List.mem_singleton] at hd'
    subst hd'
    exact absurd (List.mem_map_of_mem _ hr) hkeyn

theorem chainInv_ne (k : String) (P : List DF) (M d : DF)
    (hM : ChainInv k P M) (hd : d ∈ P) (hne : d.data ≠ []) : M.data ≠ [] := by
  cases hdd : d.data with
  | nil => exact absurd hdd hne
  | cons r rs =>
    have hkd : keyOf k r ∈ d.data.map (keyOf k) := by
      rw [hdd]
      exact List.mem_map_of_mem _ (List.mem_cons_self _ _)
    have hkM : keyOf k r ∈ M.data.map (keyOf k) :=
      (hM.keysUnion _).mpr ⟨d, hd, hkd⟩
    intro h0
    rw [h0] at hkM
    cases hkM

theorem chain_dtype (k : String) (C : Bool) (P : List DF) (M : DF)
    (hM : ChainInv k P M) (hP : P ≠ [])
    (hPne : ∀ d ∈ P, d.data ≠ [])
    (hPdt : ∀ d ∈ P, objectDtype (d.data.map (keyOf k)) = C) :
    objectDtype (M.data.map (keyOf k)) = C := by
  cases hPc : P with
  | nil => exact absurd hPc hP
  | cons d₀ P' =>
  subst hPc
  have hd₀ : d₀ ∈ d₀ :: P' := List.mem_cons_self _ _
  cases hb : objectDtype (M.data.map (keyOf k)) with
  | true =>
    -- the merged key column is `object`: some source shares the reason
    rcases (objectDtype_eq_true_iff _).mp hb with ⟨v, hv, hvs⟩ | hall
    · rcases (hM.keysUnion v).mp hv with ⟨d, hd, hvd⟩
      rw [← hPdt d hd]
      exact ((objectDtype_eq_true_iff _).mpr (Or.inl ⟨v, hvd, hvs⟩)).symm
    · rw [← hPdt d₀ hd₀]
      refine ((objectDtype_eq_true_iff _).mpr (Or.inr ?_)).symm
      intro v hv
      exact hall v ((hM.keysUnion v).mpr ⟨d₀, hd₀, hv⟩)
  | false =>
    -- the merged key column is numeric: so is every source's
    cases hC : C with
    | false => rfl
    | true =>
      exfalso
      have hd₀t : objectDtype (d₀.data.map (keyOf k)) = true := by rw [hPdt d₀ hd₀, hC]
      rcases (objectDtype_eq_true_iff _).mp hd₀t with ⟨v, hv, hvs⟩ | hall
      · have hvM : v ∈ M.data.map (keyOf k) := (hM.keysUnion v).mpr ⟨d₀, hd₀, hv⟩
        have : objectDtype (M.data.map (keyOf k)) = true :=
          (objectDtype_eq_true_iff _).mpr (Or.inl ⟨v, hvM, hvs⟩)
        rw [hb] at this
        cases this
      · cases hdd : d₀.data with
        | nil => exact absurd hdd (hPne d₀ hd₀)
        | cons r rs =>
          have hkd : keyOf k r ∈ d₀.data.map (keyOf k) := by
            rw [hdd]
            exact List.mem_map_of_mem _ (List.mem_cons_self _ _)
          have hknull : keyOf k r = Val.null := hall _ hkd
          have hkM : keyOf k r ∈ M.data.map (keyOf k) :=
            (hM.keysUnion _).mpr ⟨d₀, hd₀, hkd⟩
          -- every merged key comes from a numeric column, yet this one is null;
          -- the merged column is then not all-numeric unless it has a string,
          -- and a string key would force `object` on `M` — but if `M` has no
          -- string key and contains a null, it is all-null or mixed; in the
          -- all-null case it is `object`, contradicting `hb`; in the mixed
          -- case some source holds a non-null non-string key, contradicting
          -- dtype uniformity only through `M`; settle by cases on `M`'s keys
          by_cases hstr : ∃ v ∈ M.data.map (keyOf k), isStr v = true
          · obtain ⟨v, hv, hvs⟩ := hstr
            have : objectDtype (M.data.map (keyOf k)) = true :=
              (objectDtype_eq_true_iff _).mpr (Or.inl ⟨v, hv, hvs⟩)
            rw [hb] at this
            cases this
          · by_cases hnull : ∀ v ∈ M.data.map (keyOf k), v = Val.null
            · have : objectDtype (M.data.map (keyOf k)) = true :=
                (objectDtype_eq_true_iff _).mpr (Or.inr hnull)
              rw [hb] at this
              cases this
            · push_neg at hnull
              obtain ⟨v, hv, hvn⟩ := hnull
              rcases (hM.keysUnion v).mp hv with ⟨d, hd, hvd⟩
              have hdt : objectDtype (d.data.map (keyOf k)) = true := by
                rw [hPdt d hd, hC]
              rcases (objectDtype_eq_true_iff _).mp hdt with ⟨w, hw, hws⟩ | hall'
              · have hwM : w ∈ M.data.map (keyOf k) :=
                  (hM.keysUnion w).mpr ⟨d, hd, hw⟩
                exact hstr ⟨w, hwM, hws⟩
              · exact hvn (hall' v hvd)

theorem chain_fold_ok (k : String) (C : Bool) (ds : List (String × DF)) (M : DF)
    (P : List DF)
    (hM : ChainInv k P M) (hP : P ≠ [])
    (hPne : ∀ d ∈ P, d.data ≠ [])
    (hPdt : ∀ d ∈ P, objectDtype (d.data.map (keyOf k)) = C)
    (hds : ∀ q ∈ ds, dfOK k q.2)
    (hdsdt : ∀ q ∈ ds, objectDtype (q.2.data.map (keyOf k)) = C)
    (hnd : (chainCols k P
      ++ ds.flatMap (fun q => q.2.columns.filter (fun c => c ≠ k))).Nodup) :
    ∃ Mfin, chainFoldE k M ds = .ok Mfin
      ∧ ChainInv k (P ++ ds.map (·.2)) Mfin := by
  induction ds generalizing M P with
  | nil => exact ⟨M, rfl, by simpa using hM⟩
  | cons q rest ih =>
    have hqOK := hds q (List.mem_cons_self _ _)
    have hfresh : ∀ c ∈ q.2.columns, c ≠ k → c ∉ M.columns := by
      intro c hc hck hcM
      have h1 : c ∈ chainCols k P := hM.colsEq ▸ hcM
      have h2 : c ∈ q.2.columns.filter (fun c => c ≠ k) :=
        List.mem_filter.mpr ⟨hc, by simp [hck]⟩
      rw [List.flatMap_cons] at hnd
      exact (List.nodup_append.mp hnd).2.2 h1 (List.mem_append_left _ h2)
    have hMdt : objectDtype (M.data.map (keyOf k)) = C :=
      chain_dtype k C P M hM hP hPne hPdt
    have hmerge : mergeOuter k ("_" ++ q.1) M q.2
        = .ok (mergeOuterJoin k ("_" ++ q.1) M q.2) := by
      unfold mergeOuter
      rw [if_pos]
      rw [hMdt, hdsdt q (List.mem_cons_self _ _)]
    have hstep := mergeOuterJoin_inv k ("_" ++ q.1) P M q.2 hM hqOK hP hfresh
    have hnd' : (chainCols k (P ++ [q.2])
        ++ rest.flatMap (fun p => p.2.columns.filter (fun c => c ≠ k))).Nodup := by
      rw [chainCols_append_singleton k P q.2 hP]
      rw [List.flatMap_cons] at hnd
      simpa [List.append_assoc] using hnd
    have hPne' : ∀ d ∈ P ++ [q.2], d.data ≠ [] := by
      intro d hd
      rcases List.mem_append.mp hd with hd | hd
      · exact hPne d hd
      · rw [List.mem_singleton] at hd
        subst hd
        exact hqOK.2.2.2
    have hPdt' : ∀ d ∈ P ++ [q.2], objectDtype (d.data.map (keyOf k)) = C := by
      intro d hd
      rcases List.mem_append.mp hd with hd | hd
      · exact hPdt d hd
      · rw [List.mem_singleton] at hd
        subst hd
        exact hdsdt q (List.mem_cons_self _ _)
    obtain ⟨Mfin, hfe, hinv⟩ := ih (mergeOuterJoin k ("_" ++ q.1) M q.2) (P ++ [q.2])
      hstep (by simp) hPne' hPdt'
      (fun p hp => hds p (List.mem_cons_of_mem _ hp))
      (fun p hp => hdsdt p (List.mem_cons_of_mem _ hp)) hnd'
    refine ⟨Mfin, ?_, by simpa [List.append_assoc] using hinv⟩
    simp only [chainFoldE]
    rw [hmerge]
    exact hfe


/-- C2 counterexample: the claim promises exactly one merged row per
value in the union of all `merge_key` values.  A single successful
source whose `id` column holds `1` twice is passed through the join
path unreduced: the union of key values is `{1}` but the merged
dataset has two rows (with several sources, `pd.merge` would likewise
produce one row per *pair* of equal keys). -/
theorem c2_duplicate_keys_break_join :
    (joinMerge c2ex "id").toOption.map (fun m => (m.rowCount, m.data.map (keyOf "id")))
        = some (2, [Val.int 1, Val.int 1])
      ∧ c2ex.flatMap (fun p => (p.2.data.getD []).map (keyOf "id"))
          = [Val.int 1, Val.int 1] := by
  exact ⟨rfl, rfl⟩

theorem joinMerge_spec (results : List (String × FanoutEntry))
    (k : String) (h : joinPrecond k results) :
    ∃ m, joinMerge results k = .ok m
      ∧ (m.data.map (keyOf k)).Nodup
      ∧ (∀ v, v ∈ m.data.map (keyOf k)
          ↔ v ∈ results.flatMap (fun p => (p.2.data.getD []).map (keyOf k)))
      ∧ m.rowCount = m.data.length
      ∧ k ∈ m.columns
      ∧ (∀ p ∈ results.filter (fun q => !(q.2.data.getD []).isEmpty),
          ∀ c ∈ (pdDataFrame (p.2.data.getD [])).columns, c ≠ k →
            (c ++ "_" ++ p.1) ∈ m.columns)
      ∧ (∀ row ∈ m.data, ∀ p ∈ results.filter (fun q => !(q.2.data.getD []).isEmpty),
          keyOf k row ∉ (p.2.data.getD []).map (keyOf k) →
          ∀ c ∈ (pdDataFrame (p.2.data.getD [])).columns, c ≠ k →
            getKey row (c ++ "_" ++ p.1) = some Val.null) := by
  obtain ⟨h1, h2, h3, h6, h7, hdt⟩ := h
  have hbuild := buildDfs_ok k results h1
  have hkeyIn : ∀ p ∈ results, (p.2.data.getD []) ≠ [] →
      k ∈ (pdDataFrame (p.2.data.getD [])).columns :=
    fun p hp hne => (h1 p hp).resolve_left hne
  have hkeysEqP : ∀ p ∈ results, (p.2.data.getD []) ≠ [] →
      (renameDF k p.1 (pdDataFrame (p.2.data.getD []))).data.map (keyOf k)
        = (p.2.data.getD []).map (keyOf k) := by
    intro p hp hne
    rw [renameDF_keyOf k p.1 _ (pdDataFrame_rowsKeys _) (h6 p hp),
      pdDataFrame_keys _ _ (hkeyIn p hp hne)]
  have hparts_mem : ∀ p ∈ results.filter (fun q => !(q.2.data.getD []).isEmpty),
      p ∈ results ∧ (p.2.data.getD []) ≠ [] := by
    intro p hp
    rw [List.mem_filter] at hp
    obtain ⟨hm, hne⟩ := hp
    refine ⟨hm, ?_⟩
    intro hnil
    rw [hnil] at hne
    simp at hne
  have hdfOK : ∀ p ∈ results.filter (fun q => !(q.2.data.getD []).isEmpty),
      dfOK k (renameDF k p.1 (pdDataFrame (p.2.data.getD []))) := by
    intro p hp
    obtain ⟨hm, hne⟩ := hparts_mem p hp
    refine ⟨renameDF_rowsKeys _ _ _ (pdDataFrame_rowsKeys _), ?_,
      renameDF_keyMem _ _ _ (hkeyIn p hm hne), ?_⟩
    · rw [hkeysEqP p hm hne]
      exact h3 p hm
    · intro h0
      have hke := hkeysEqP p hm hne
      rw [h0] at hke
      cases hdd : p.2.data.getD [] with
      | nil => exact hne hdd
      | cons r rs =>
        rw [hdd] at hke
        simp at hke
  rcases hpc : results.filter (fun q => !(q.2.data.getD []).isEmpty)
    with - | ⟨p₀, partsRest⟩
  · exact absurd hpc h2
  · have hbuild' : buildDfs k results
        = .ok ((p₀ :: partsRest).map
            (fun p => (p.1, renameDF k p.1 (pdDataFrame (p.2.data.getD []))))) := by
      rw [hbuild, hpc]
    have hp₀mem : p₀ ∈ results.filter (fun q => !(q.2.data.getD []).isEmpty) := by
      rw [hpc]
      exact List.mem_cons_self _ _
    have hds : ∀ q ∈ partsRest.map
        (fun p => (p.1, renameDF k p.1 (pdDataFrame (p.2.data.getD [])))),
        dfOK k q.2 := by
      intro q hq
      rcases List.mem_map.mp hq with ⟨p, hp, hqe⟩
      rw [← hqe]
      exact hdfOK p (by rw [hpc]; exact List.mem_cons_of_mem _ hp)
    have hnd : (chainCols k [renameDF k p₀.1 (pdDataFrame (p₀.2.data.getD []))]
        ++ (partsRest.map
            (fun p => (p.1, renameDF k p.1 (pdDataFrame (p.2.data.getD []))))).flatMap
          (fun q => q.2.columns.filter (fun c => c ≠ k))).Nodup := by
      rw [hpc] at h7
      rw [List.map_cons] at h7
      simp only [chainCols, List.flatMap_nil, List.append_nil, List.flatMap_map] at h7 ⊢
      exact h7
    obtain ⟨hp₀m, hp₀ne⟩ := hparts_mem p₀ hp₀mem
    have hPne : ∀ d ∈ [renameDF k p₀.1 (pdDataFrame (p₀.2.data.getD []))],
        d.data ≠ [] := by
      intro d hd
      rw [List.mem_singleton] at hd
      subst hd
      exact (hdfOK p₀ hp₀mem).2.2.2
    have hPdt : ∀ d ∈ [renameDF k p₀.1 (pdDataFrame (p₀.2.data.getD []))],
        objectDtype (d.data.map (keyOf k))
          = objectDtype ((p₀.2.data.getD []).map (keyOf k)) := by
      intro d hd
      rw [List.mem_singleton] at hd
      subst hd
      rw [hkeysEqP p₀ hp₀m hp₀ne]
    have hdsdt : ∀ q ∈ partsRest.map
        (fun p => (p.1, renameDF k p.1 (pdDataFrame (p.2.data.getD [])))),
        objectDtype (q.2.data.map (keyOf k))
          = objectDtype ((p₀.2.data.getD []).map (keyOf k)) := by
      intro q hq
      rcases List.mem_map.mp hq with ⟨p, hp, hqe⟩
      have hpfil : p ∈ results.filter (fun q => !(q.2.data.getD []).isEmpty) := by
        rw [hpc]
        exact List.mem_cons_of_mem _ hp
      obtain ⟨hm, hne⟩ := hparts_mem p hpfil
      rw [← hqe]
      show objectDtype ((renameDF k p.1 (pdDataFrame (p.2.data.getD []))).data.map
        (keyOf k)) = _
      rw [hkeysEqP p hm hne]
      exact hdt p hm p₀ hp₀m hne hp₀ne
    obtain ⟨Mfin, hfe, hInv⟩ := chain_fold_ok k
      (objectDtype ((p₀.2.data.getD []).map (keyOf k)))
      (partsRest.map (fun p => (p.1, renameDF k p.1 (pdDataFrame (p.2.data.getD [])))))
      (renameDF k p₀.1 (pdDataFrame (p₀.2.data.getD [])))
      [renameDF k p₀.1 (pdDataFrame (p₀.2.data.getD []))]
      (chainInv_single k _ (hdfOK p₀ hp₀mem)) (by simp) hPne hPdt hds hdsdt hnd
    have hdfsEq : [renameDF k p₀.1 (pdDataFrame (p₀.2.data.getD []))]
        ++ (partsRest.map
            (fun p => (p.1, renameDF k p.1 (pdDataFrame (p.2.data.getD []))))).map (·.2)
        = (p₀ :: partsRest).map
            (fun p => renameDF k p.1 (pdDataFrame (p.2.data.getD []))) := by
      simp [List.map_map]
    rw [hdfsEq] at hInv
    refine ⟨{ success := true
              mergeType := "join"
              mergeKey := some k
              sourceDatabases := results.map (·.1)
              columns := Mfin.columns
              data := Mfin.data
              rowCount := Mfin.data.length
              rowsPerSource := results.map (fun p => (p.1, p.2.rowCount.getD 0)) },
      ?_, ?_, ?_, rfl, ?_, ?_, ?_⟩
    · have hjm : joinMerge results k
          = match chainFoldE k (renameDF k p₀.1 (pdDataFrame (p₀.2.data.getD [])))
              (partsRest.map
                (fun p => (p.1, renameDF k p.1 (pdDataFrame (p.2.data.getD []))))) with
            | .error e => .error e
            | .ok m =>
              .ok
              { success := true
                mergeType := "join"
                mergeKey := some k
                sourceDatabases := results.map (·.1)
                columns := m.columns
                data := m.data
                rowCount := m.data.length
                rowsPerSource := results.map (fun p => (p.1, p.2.rowCount.getD 0)) } := by
        unfold joinMerge
        rw [hbuild']
        rfl
      rw [hjm, hfe]
    · exact hInv.keysNodup
    · intro v
      rw [hInv.keysUnion v, List.mem_flatMap]
      constructor
      · rintro ⟨df, hdf, hv⟩
        rcases List.mem_map.mp hdf with ⟨p, hp, hde⟩
        have hpfil : p ∈ results.filter (fun q => !(q.2.data.getD []).isEmpty) := by
          rw [hpc]
          exact hp
        obtain ⟨hm, hne⟩ := hparts_mem p hpfil
        rw [← hde, hkeysEqP p hm hne] at hv
        exact ⟨p, hm, hv⟩
      · rintro ⟨p, hp, hv⟩
        have hne : (p.2.data.getD []) ≠ [] := by
          intro hnil
          rw [hnil] at hv
          simp at hv
        have hpfil : p ∈ p₀ :: partsRest := by
          rw [← hpc, List.mem_filter]
          refine ⟨hp, ?_⟩
          cases hdd : p.2.data.getD [] with
          | nil => exact absurd hdd hne
          | cons a as => rfl
        refine ⟨renameDF k p.1 (pdDataFrame (p.2.data.getD [])),
          List.mem_map_of_mem _ hpfil, ?_⟩
        rw [hkeysEqP p hp hne]
        exact hv
    · exact hInv.keyMem
    · intro p hp c hc hck
      obtain ⟨hm, hne⟩ := hparts_mem p hp
      have hpfil : p ∈ p₀ :: partsRest := by rw [← hpc]; exact hp
      have hcp : (c ++ "_" ++ p.1)
          ∈ (renameDF k p.1 (pdDataFrame (p.2.data.getD []))).columns := by
        show _ ∈ (pdDataFrame (p.2.data.getD [])).columns.map
          (fun c => if c = k then c else c ++ "_" ++ p.1)
        exact List.mem_map.mpr ⟨c, hc, by rw [if_neg hck]⟩
      rw [hInv.colsEq]
      exact mem_chainCols k
        ((p₀ :: partsRest).map (fun p => renameDF k p.1 (pdDataFrame (p.2.data.getD []))))
        (renameDF k p.1 (pdDataFrame (p.2.data.getD []))) (c ++ "_" ++ p.1)
        (List.mem_map_of_mem _ hpfil) hcp (h6 p hm c hc hck)
    · intro row hrow p hp hkeyn c hc hck
      obtain ⟨hm, hne⟩ := hparts_mem p hp
      have hpfil : p ∈ p₀ :: partsRest := by rw [← hpc]; exact hp
      have hkeyn' : keyOf k row
          ∉ (renameDF k p.1 (pdDataFrame (p.2.data.getD []))).data.map (keyOf k) := by
        rw [hkeysEqP p hm hne]
        exact hkeyn
      have hcp : (c ++ "_" ++ p.1)
          ∈ (renameDF k p.1 (pdDataFrame (p.2.data.getD []))).columns := by
        show _ ∈ (pdDataFrame (p.2.data.getD [])).columns.map
          (fun c => if c = k then c else c ++ "_" ++ p.1)
        exact List.mem_map.mpr ⟨c, hc, by rw [if_neg hck]⟩
      exact hInv.nullFill row hrow _ (List.mem_map_of_mem _ hpfil) hkeyn'
        _ hcp (h6 p hm c hc hck)

/-- C2 (amended): under the precondition `joinPrecond` — every
data-carrying source contains the merge key, at least one source has
data, per-source key values are distinct, renaming produces globally
fresh column names, and all data-carrying sources' key columns fall in
the same dtype class (`pd.merge` raises a `ValueError` on an
`object`-vs-numeric key pair) — the join merge succeeds and the merged
dataset contains exactly one row per value in the union of all
`merge_key` values appearing in any source (its key column values are
pairwise distinct and range over exactly that union; equal keys match,
including missing ones with each other); every source's non-key column
`c` appears in the merged columns as `c_<source_name>` while the key
column is present unrenamed; and a merged row whose key a source lacks
carries `None` in every renamed column of that source. -/
theorem c2_join_merge_one_row_per_key (results : List (String × FanoutEntry))
    (k : String) (h : joinPrecond k results) :
    ∃ m, joinMerge results k = .ok m
      ∧ (m.data.map (keyOf k)).Nodup
      ∧ (∀ v, v ∈ m.data.map (keyOf k)
          ↔ v ∈ results.flatMap (fun p => (p.2.data.getD []).map (keyOf k)))
      ∧ m.rowCount = m.data.length
      ∧ k ∈ m.columns
      ∧ (∀ p ∈ results.filter (fun q => !(q.2.data.getD []).isEmpty),
          ∀ c ∈ (pdDataFrame (p.2.data.getD [])).columns, c ≠ k →
            (c ++ "_" ++ p.1) ∈ m.columns)
      ∧ (∀ row ∈ m.data, ∀ p ∈ results.filter (fun q => !(q.2.data.getD []).isEmpty),
          keyOf k row ∉ (p.2.data.getD []).map (keyOf k) →
          ∀ c ∈ (pdDataFrame (p.2.data.getD [])).columns, c ≠ k →
            getKey row (c ++ "_" ++ p.1) = some Val.null) :=
  joinMerge_spec results k h

/-- C2 witness: the amended theorem applied to the spec's join
outer-match example (`A` with ids 1, 2; `B` with ids 2, 3): the merge
succeeds with one row per id. -/
theorem c2_join_merge_one_row_per_key_witness :
    ∃ m, joinMerge wAB "id" = .ok m ∧ (m.data.map (keyOf "id")).Nodup := by
  obtain ⟨m, hok, hnodup, -⟩ := c2_join_merge_one_row_per_key wAB "id" (by
    refine ⟨?_, ?_, ?_, ?_, ?_, ?_⟩ <;> decide)
  exact ⟨m, hok, hnodup⟩

/-- C3 (amended): in join mode, a falsy (`None`/empty) merge key fails
with `merge_key is required for join operations`; among the remaining
successful entries, the key is checked only against entries that have
at least one data row (against the columns derived from those rows):
the first such entry lacking the key makes the merge fail naming that
source and the key; if every entry with data contains the key, at
least one entry has data, and the chained `pd.merge` calls raise no
error (the `joinPrecond` conditions, notably matching key dtypes), the
merge succeeds; and if no remaining entry has any data the merge fails
with `No data available for join`. -/
theorem c3_join_key_precondition (results : List (String × FanoutEntry)) (k : String) :
    ((results.filter (fun p => p.2.success)).isEmpty = false →
      mergeResultsFn results "join" none
          = .error "merge_key is required for join operations"
        ∧ mergeResultsFn results "join" (some "")
          = .error "merge_key is required for join operations")
      ∧ (k ≠ "" → ∀ pre n r post,
          results.filter (fun p => p.2.success) = pre ++ (n, r) :: post →
          (∀ p ∈ pre, (p.2.data.getD []) = []
            ∨ k ∈ (pdDataFrame (p.2.data.getD [])).columns) →
          (r.data.getD []) ≠ [] →
          k ∉ (pdDataFrame (r.data.getD [])).columns →
          mergeResultsFn results "join" (some k)
            = .error ("Merge key '" ++ k ++ "' not found in " ++ n))
      ∧ (k ≠ "" →
          (results.filter (fun p => p.2.success)).isEmpty = false →
          joinPrecond k (results.filter (fun p => p.2.success)) →
          isOkE (mergeResultsFn results "join" (some k)) = true)
      ∧ (k ≠ "" →
          (results.filter (fun p => p.2.success)).isEmpty = false →
          (∀ p ∈ results.filter (fun p => p.2.success), (p.2.data.getD []) = []) →
          mergeResultsFn results "join" (some k)
            = .error "No data available for join") := by
  refine ⟨?_, ?_, ?_, ?_⟩
  · intro hs
    constructor
    · simp [mergeResultsFn, hs]
    · simp [mergeResultsFn, hs]
  · intro hk pre n r post hsplit hpre hne hmiss
    have hs : (results.filter (fun p => p.2.success)).isEmpty = false := by
      rw [hsplit]
      cases pre <;> rfl
    rw [mergeResultsFn_join_reduces results k hk hs]
    unfold joinMerge
    rw [hsplit, buildDfs_first_offender k pre n r post hpre hne hmiss]
  · intro hk hs hpre
    rw [mergeResultsFn_join_reduces results k hk hs]
    obtain ⟨m, hok, -⟩ := joinMerge_spec (results.filter (fun p => p.2.success)) k hpre
    rw [hok]
    rfl
  · intro hk hs hall
    rw [mergeResultsFn_join_reduces results k hk hs]
    unfold joinMerge
    rw [buildDfs_ok k _ (fun p hp => Or.inl (hall p hp))]
    have hfil : (results.filter (fun q => q.2.success)).filter
        (fun q => !(q.2.data.getD []).isEmpty) = [] := by
      rw [List.filter_eq_nil_iff]
      intro p hp
      simp [hall p hp]
    rw [hfil]
    rfl

/-- C3 witness: the amended theorem applied to concrete inputs — a
missing key is rejected; a source with data but no `id` column makes
the merge fail naming `B`; and the merge succeeds when every
data-carrying source has the key and the `joinPrecond` conditions
hold. -/
theorem c3_join_key_precondition_witness :
    mergeResultsFn wAB "join" none
        = .error "merge_key is required for join operations"
      ∧ mergeResultsFn c3bEx "join" (some "id")
          = .error ("Merge key '" ++ "id" ++ "' not found in " ++ "B")
      ∧ isOkE (mergeResultsFn wAB "join" (some "id")) = true := by
  refine ⟨((c3_join_key_precondition wAB "id").1 (by decide)).1, ?_, ?_⟩
  · exact (c3_join_key_precondition c3bEx "id").2.1 (by decide)
      [("A", mkSuccess ["id"] [[("id", Val.int 1)]] 1)]
      "B" (mkSuccess ["x"] [[("x", Val.int 5)]] 1) [] (by decide) (by decide)
      (by decide) (by decide)
  · exact (c3_join_key_precondition wAB "id").2.2.1 (by decide) (by decide)
      (by refine ⟨?_, ?_, ?_, ?_, ?_, ?_⟩ <;> decide)

end MyQuery
